import Mathlib

/-!
Shallow embedding of `blp.py` (BLPInterface): a wrapper around the Bloomberg
API that reshapes hierarchical response messages into tabular structures.

The vendor transport (blpapi session, events, messages) is modelled as data:
a session is a list of events, each event a list of messages.  pandas
DataFrames are modelled by the `PDF` structure below (labelled axes plus a
row-major cell matrix); the pandas operations the source uses (`ix`-style
upsert assignment, `concat` along either axis, `set_index`, `append`,
`replace`) are given executable models.  Machine-level behaviour (network,
real time) is outside the embedding; request functions return a `PyResult`
whose `diverge` constructor models the unbounded polling loop never seeing a
terminal event and whose `exn` constructor models a raised Python exception
that is not a `RequestError` (malformed message shapes).
-/

/-- Dynamic values stored in message elements and table cells: strings,
numbers, booleans, datetimes (as an abstract ordinal) and the missing-value
marker `np.nan`. -/
inductive Val
  | str (s : String)
  | num (n : Int)
  | boolV (b : Bool)
  | dt (n : Nat)
  | na
deriving DecidableEq

/-- Replaces the element at position `i` of a list by applying `f`;
out-of-range indices leave the list unchanged. -/
def setAt {α : Type} (l : List α) (i : Nat) (f : α → α) : List α :=
  match l, i with
  | [], _ => []
  | x :: xs, 0 => f x :: xs
  | x :: xs, n + 1 => x :: setAt xs n f

/-- Position of the first occurrence of `a` in a list, if any. -/
def elemIdx {α : Type} [DecidableEq α] (a : α) : List α → Option Nat
  | [] => none
  | x :: xs => if x = a then some 0 else (elemIdx a xs).map (· + 1)

/-- Boolean membership test via `elemIdx`. -/
def memB {α : Type} [DecidableEq α] (a : α) (l : List α) : Bool :=
  (elemIdx a l).isSome

/-- Model of a pandas DataFrame: labelled row and column axes (each axis may
carry level names) and a row-major matrix of cells.  Duplicate labels are
allowed, as in pandas. -/
structure PDF (ι κ : Type) where
  indexNames : List String := []
  colNames : List String := []
  index : List ι := []
  cols : List κ := []
  cells : List (List Val) := []
deriving DecidableEq

/-- Model of pandas `df.empty`: true when either axis has length zero. -/
def PDF.isEmpty {ι κ : Type} (df : PDF ι κ) : Bool :=
  df.index.isEmpty || df.cols.isEmpty

/-- Model of `df.iloc[0,0]` on the well-formed tables this embedding builds
(first row, first column). -/
def PDF.iloc00 {ι κ : Type} (df : PDF ι κ) : Val :=
  (df.cells.headD []).headD Val.na

/-- Sets the axis names of a frame (pandas `index.name` / `columns.name`). -/
def withNames {ι κ : Type} (idxNames colNames : List String) (df : PDF ι κ) : PDF ι κ :=
  { df with indexNames := idxNames, colNames := colNames }

/-- Model of the pandas label-based upsert `df.ix[r, c] = v`: a missing
column label is appended (filling existing rows with `na`), a missing row
label is appended (filled with `na`), then the addressed cell is set. -/
def ixSet {ι κ : Type} [DecidableEq ι] [DecidableEq κ]
    (df : PDF ι κ) (r : ι) (c : κ) (v : Val) : PDF ι κ :=
  let df1 :=
    if memB c df.cols then df
    else { df with cols := df.cols ++ [c], cells := df.cells.map (fun row => row ++ [Val.na]) }
  let df2 :=
    if memB r df1.index then df1
    else { df1 with index := df1.index ++ [r],
                    cells := df1.cells ++ [List.replicate df1.cols.length Val.na] }
  let ri := (elemIdx r df2.index).getD 0
  let ci := (elemIdx c df2.cols).getD 0
  { df2 with cells := setAt df2.cells ri (fun row => setAt row ci (fun _ => v)) }

/-- Original caller argument shape: a single string or a list of strings.
The source inspects `type(securities) == str` on the original argument to
choose the output shape. -/
inductive StrOrList
  | str (s : String)
  | list (l : List String)
deriving DecidableEq

/-- Tests whether the original argument was a scalar string. -/
def StrOrList.isStr : StrOrList → Bool
  | .str _ => true
  | .list _ => false

/-- Promotion of a scalar argument to a one-element list, as performed at
the top of `sendRequest`. -/
def toListArg : StrOrList → List String
  | .str s => [s]
  | .list l => l

/-- Calendar-date part of a Python `datetime` value. -/
structure PyDate where
  year : Nat
  month : Nat
  day : Nat
deriving DecidableEq

/-- Option values attached to a request (`request.set(k, v)`): strings,
booleans, numbers, or `datetime` values. -/
inductive PyVal
  | str (s : String)
  | boolV (b : Bool)
  | num (n : Int)
  | date (d : PyDate)
deriving DecidableEq

/-- Tests whether an option value is a `datetime` (Python `type(v) == datetime`). -/
def PyVal.isDate : PyVal → Bool
  | .date _ => true
  | _ => false

/-- Big-endian base-10 digit list of a natural number (empty for zero). -/
def digitsBE (n : Nat) : List Nat := (Nat.digits 10 n).reverse

/-- Left-pads a digit list with zeros to width `w`. -/
def padDigits (w : Nat) (l : List Nat) : List Nat :=
  List.replicate (w - l.length) 0 ++ l

/-- Digit sequence of `strftime('%Y%m%d')`: four year digits, two month
digits, two day digits, each zero-padded. -/
def dateDigits (d : PyDate) : List Nat :=
  padDigits 4 (digitsBE d.year) ++ padDigits 2 (digitsBE d.month) ++ padDigits 2 (digitsBE d.day)

/-- Character for a single decimal digit. -/
def digitChar (n : Nat) : Char := Char.ofNat (48 + n % 10)

/-- Model of Python `v.strftime('%Y%m%d')` on the calendar-date part of a
`datetime`: the 8-character zero-padded `YYYYMMDD` string. -/
def strftimeYMD (d : PyDate) : String := String.mk ((dateDigits d).map digitChar)

/-- Numeric value of a decimal digit character. -/
def charVal (c : Char) : Nat := c.toNat - 48

/-- Value of a big-endian digit list. -/
def fromDigitsBE (l : List Nat) : Nat := Nat.ofDigits 10 l.reverse

/-- Inverse of the date serialization: reads an 8-digit `YYYYMMDD` string
back into a calendar date. -/
def parseYMD (s : String) : Option PyDate :=
  if s.data.length = 8 ∧ s.data.all Char.isDigit then
    some ⟨fromDigitsBE ((s.data.map charVal).take 4),
          fromDigitsBE (((s.data.map charVal).drop 4).take 2),
          fromDigitsBE ((s.data.map charVal).drop 6)⟩
  else none

/-- Model of the option-value serialization in `sendRequest`:
`if type(v) == datetime: v = v.strftime('%Y%m%d')`; every other value is
passed through unchanged. -/
def serializeOpt : PyVal → PyVal
  | .date d => .str (strftimeYMD d)
  | v => v

/-- Scalar or array content of a field element of a response message. -/
inductive FieldContent
  | scalar (v : Val)
  | array (rows : List (List (String × Val)))
deriving DecidableEq

/-- Model of blpapi `Element.getValue()` on a field element: defined for
scalar content; on array content the source would receive an `Element`
object, which this embedding treats as a malformed shape. -/
def FieldContent.getValue : FieldContent → Option Val
  | .scalar v => some v
  | .array _ => none

/-- Per-security data of a `ReferenceDataResponse` message: the security
identifier and its named field elements in order. -/
structure RefSec where
  security : String
  fieldData : List (String × FieldContent)
deriving DecidableEq

/-- Per-security data of a `HistoricalDataResponse` message: the security
identifier and the list of per-date row records, each a list of named
elements (normally including a `date` element). -/
structure HistData where
  security : String
  fieldData : List (List (String × Val))
deriving DecidableEq

/-- Payload under the `securityData` element: an array of per-security
records (reference/bulk responses) or a single security's history. -/
inductive SDPayload
  | ref (secs : List RefSec)
  | hist (h : HistData)
deriving DecidableEq

/-- Model of the `securityData` element as inspected by `sendRequest`:
an optional `fieldExceptions` array, an optional `securityError` element,
and the data payload. -/
structure SecurityData where
  fieldExceptions : Option (List Val) := none
  securityError : Option Val := none
  payload : SDPayload := .ref []
deriving DecidableEq

/-- Model of a blpapi message: its type tag, an optional `responseError`
element and an optional `securityData` element. -/
structure Msg where
  msgType : String
  responseError : Option Val := none
  securityData : Option SecurityData := none
deriving DecidableEq

/-- Event type tag: `blpapi.Event.RESPONSE` (the terminal event of a
request) versus every other event type (partial response, timeout, ...). -/
inductive EventType
  | response
  | other
deriving DecidableEq

/-- Model of a blpapi event: its type tag and the messages it carries. -/
structure BEvent where
  eventType : EventType
  msgs : List Msg
deriving DecidableEq

/-- Payload carried by a `RequestError`: the raw offending element (or
element array) from the message. -/
inductive ErrPayload
  | val (v : Val)
  | vals (vs : List Val)
deriving DecidableEq

/-- Model of the `RequestError` exception: raw payload plus a description,
one of "Response Error", "Field Error", "Security Error". -/
structure RequestError where
  value : ErrPayload
  description : String
deriving DecidableEq

/-- Security-error check of `sendRequest`: raise "Security Error" when the
`securityData` element carries a `securityError` element. -/
def checkSecErr (sd : SecurityData) : Option RequestError :=
  match sd.securityError with
  | some e => some ⟨.val e, "Security Error"⟩
  | none => none

/-- Per-message validation of `sendRequest`, in source order: a
`responseError` element raises "Response Error"; otherwise a non-empty
`fieldExceptions` array under `securityData` raises "Field Error";
otherwise a `securityError` element under `securityData` raises
"Security Error". -/
def checkMsg (m : Msg) : Option RequestError :=
  match m.responseError with
  | some e => some ⟨.val e, "Response Error"⟩
  | none =>
    match m.securityData with
    | some sd =>
      match sd.fieldExceptions with
      | some fes => if fes.length > 0 then some ⟨.vals fes, "Field Error"⟩ else checkSecErr sd
      | none => checkSecErr sd
    | none => none

/-- Processes the messages of one event: each message is validated (the
first failing check aborts with its `RequestError`), and messages whose
type equals the expected response type are appended to the accumulator. -/
def processEvent (expected : String) : List Msg → List Msg → Except RequestError (List Msg)
  | [], acc => .ok acc
  | m :: ms, acc =>
    match checkMsg m with
    | some err => .error err
    | none => processEvent expected ms (if m.msgType = expected then acc ++ [m] else acc)

/-- Polling loop of `sendRequest`: events are consumed in order; the loop
returns the accumulated messages after processing the first event of type
`RESPONSE`.  The value `none` models the Python loop polling timeout events
forever when no terminal event arrives. -/
def pollLoop (expected : String) : List BEvent → List Msg → Option (Except RequestError (List Msg))
  | [], _ => none
  | e :: rest, acc =>
    match processEvent expected e.msgs acc with
    | .error err => some (.error err)
    | .ok acc' =>
      if e.eventType = EventType.response then some (.ok acc') else pollLoop expected rest acc'

/-- Events actually observed by the polling loop: every event up to and
including the first terminal event (all events when none is terminal). -/
def observedEvents : List BEvent → List BEvent
  | [] => []
  | e :: rest =>
    if e.eventType = EventType.response then [e] else e :: observedEvents rest

/-- Messages observed by the polling loop, in arrival order. -/
def observedMsgs (evs : List BEvent) : List Msg :=
  ((observedEvents evs).map BEvent.msgs).flatten

/-- Model of the outgoing blpapi request: its name, the appended
`securities` and `fields` values, and the options set on it. -/
structure Request where
  name : String
  securities : List String
  fields : List String
  elements : List (String × PyVal)
deriving DecidableEq

/-- Model of Python `dict.__setitem__`: replace the value at an existing
key in place, else append the new binding. -/
def dictSet (d : List (String × PyVal)) (k : String) (v : PyVal) : List (String × PyVal) :=
  if d.any (fun kv => kv.1 == k) then d.map (fun kv => if kv.1 == k then (k, v) else kv)
  else d ++ [(k, v)]

/-- Model of Python `defaults.update(kwargs)`: every caller binding is
written into the defaults dict, overriding clashing keys. -/
def dictUpdate (d kvs : List (String × PyVal)) : List (String × PyVal) :=
  kvs.foldl (fun acc kv => dictSet acc kv.1 kv.2) d

/-- Model of `request.set(k, v)` on the request's element list (an upsert,
since blpapi `set` overwrites an existing option). -/
def requestSet (els : List (String × PyVal)) (k : String) (v : PyVal) : List (String × PyVal) :=
  dictSet els k v

/-- Request construction of `sendRequest`: scalar arguments are promoted to
one-element lists and appended, and each option is set after date
serialization. -/
def buildRequest (name : String) (securities fields : StrOrList)
    (elements : List (String × PyVal)) : Request :=
  { name := name,
    securities := toListArg securities,
    fields := toListArg fields,
    elements := elements.foldl (fun acc kv => requestSet acc kv.1 (serializeOpt kv.2)) [] }

/-- Model of `sendRequest`: builds and submits the request, then drains the
session's events.  The first component is the outgoing request; the second
is the polling outcome. -/
def sendRequest (requestType : String) (securities fields : StrOrList)
    (elements : List (String × PyVal)) (session : List BEvent) :
    Request × Option (Except RequestError (List Msg)) :=
  (buildRequest (requestType ++ "Request") securities fields elements,
   pollLoop (requestType ++ "Response") session [])

/-- Outcome of a public request operation: a value, a raised
`RequestError`, a raised non-`RequestError` Python exception (malformed
message shape), or divergence of the polling loop. -/
inductive PyResult (α : Type)
  | ok (a : α)
  | raised (e : RequestError)
  | exn
  | diverge
deriving DecidableEq

/-- Lifts a polling outcome into a `PyResult` via a parser for the
accumulated messages. -/
def liftPoll {α : Type} (p : Option (Except RequestError (List Msg)))
    (f : List Msg → PyResult α) : PyResult α :=
  match p with
  | none => .diverge
  | some (.error e) => .raised e
  | some (.ok msgs) => f msgs

/-- Fixed default option set of `historicalRequest`, in source order,
including the given start and end dates. -/
def historicalDefaults (startDate endDate : PyVal) : List (String × PyVal) :=
  [("startDate", startDate),
   ("endDate", endDate),
   ("periodicityAdjustment", .str "ACTUAL"),
   ("periodicitySelection", .str "DAILY"),
   ("nonTradingDayFillOption", .str "ACTIVE_DAYS_ONLY"),
   ("adjustmentNormal", .boolV false),
   ("adjustmentAbnormal", .boolV false),
   ("adjustmentSplit", .boolV true),
   ("adjustmentFollowDPDF", .boolV false)]

/-- Connection state of a `BLPInterface` object: the `active` flag plus
counters of session starts and stops (so that "a new session is started" /
"the session is stopped" are observable). -/
structure ConnState where
  active : Bool
  sessionsStarted : Nat
  sessionsStopped : Nat
deriving DecidableEq

/-- Model of `open()`: when inactive, start a session and set the flag;
when already active, do nothing. -/
def openConn (s : ConnState) : ConnState :=
  if s.active then s
  else { active := true, sessionsStarted := s.sessionsStarted + 1,
         sessionsStopped := s.sessionsStopped }

/-- Model of `close()`: when active, stop the session and clear the flag;
when already inactive, do nothing. -/
def closeConn (s : ConnState) : ConnState :=
  if s.active then { s with active := false, sessionsStopped := s.sessionsStopped + 1 }
  else s

/-- State-threading variant of the polling loop: mirrors that no statement
in the `sendRequest` loop assigns the connection attributes. -/
def pollLoopSt (expected : String) :
    ConnState → List BEvent → List Msg →
    (Option (Except RequestError (List Msg))) × ConnState
  | conn, [], _ => (none, conn)
  | conn, e :: rest, acc =>
    match processEvent expected e.msgs acc with
    | .error err => (some (.error err), conn)
    | .ok acc' =>
      if e.eventType = EventType.response then (some (.ok acc'), conn)
      else pollLoopSt expected conn rest acc'

/-- Model of `sendRequest` with the connection state threaded through:
request construction, submission and polling never touch the state. -/
def sendRequestSt (conn : ConnState) (requestType : String)
    (securities fields : StrOrList) (elements : List (String × PyVal))
    (session : List BEvent) :
    (Request × Option (Except RequestError (List Msg))) × ConnState :=
  let req := buildRequest (requestType ++ "Request") securities fields elements
  let pr := pollLoopSt (requestType ++ "Response") conn session []
  ((req, pr.1), pr.2)

/-- Insertion of a value into a strictly sorted list, keeping it strictly
sorted (duplicates are dropped). -/
def insertSorted (x : Nat) : List Nat → List Nat
  | [] => [x]
  | y :: ys => if x < y then x :: y :: ys else if x = y then y :: ys else y :: insertSorted x ys

/-- Sorted duplicate-free arrangement of a list of dates. -/
def sortedDedup (l : List Nat) : List Nat := l.foldr insertSorted []

/-- Model of the pandas outer-join row alignment for `concat(axis=1)` on
date indexes: identical indexes are kept as they are (positional
alignment); differing indexes are replaced by their sorted union. -/
def unionIndexNat (ls : List (List Nat)) : List Nat :=
  match ls with
  | [] => []
  | x :: xs => if xs.all (fun l => l == x) then x else sortedDedup (x :: xs).flatten

/-- Model of the pandas outer-join alignment on object-valued axes:
identical axes are kept; differing axes are replaced by the first-occurrence
union. -/
def unionIndexFirst {ι : Type} [DecidableEq ι] (ls : List (List ι)) : List ι :=
  match ls with
  | [] => []
  | x :: xs =>
    if xs.all (fun l => l == x) then x
    else ((x :: xs).flatten).foldl (fun acc a => if memB a acc then acc else acc ++ [a]) []

/-- Cell matrix of a frame re-aligned to a new row index (missing labels
yield rows of `na`; a duplicated label resolves to its first occurrence). -/
def reindexRows {ι κ : Type} [DecidableEq ι] (frag : PDF ι κ) (newIndex : List ι) :
    List (List Val) :=
  newIndex.map (fun r =>
    match elemIdx r frag.index with
    | some i => frag.cells.getD i (List.replicate frag.cols.length Val.na)
    | none => List.replicate frag.cols.length Val.na)

/-- Cell matrix of a frame re-aligned to a new column axis. -/
def reindexCols {ι κ : Type} [DecidableEq κ] (frag : PDF ι κ) (newCols : List κ) :
    List (List Val) :=
  frag.cells.map (fun row =>
    newCols.map (fun c =>
      match elemIdx c frag.cols with
      | some j => row.getD j Val.na
      | none => Val.na))

/-- Common value of a list of axis-name lists: kept when all agree,
dropped otherwise (pandas name propagation through `concat`). -/
def commonNames (ls : List (List String)) : List String :=
  match ls with
  | [] => []
  | x :: xs => if xs.all (fun l => l == x) then x else []

/-- Horizontal positional concatenation of cell matrices (used when all row
indexes coincide). -/
def hcat (mats : List (List (List Val))) (n : Nat) : List (List Val) :=
  (List.range n).map (fun i => (mats.map (fun m => m.getD i [])).flatten)

/-- Model of `pd.concat(frags, axis=1)`: rows aligned by the union model
`union`, columns concatenated in fragment order. -/
def concatCols {ι : Type} [DecidableEq ι] (union : List (List ι) → List ι)
    (frags : List (PDF ι String)) : PDF ι String :=
  let idx := union (frags.map PDF.index)
  let aligned :=
    if frags.all (fun f => f.index == idx) then frags.map PDF.cells
    else frags.map (fun f => reindexRows f idx)
  { indexNames := commonNames (frags.map PDF.indexNames),
    colNames := [],
    index := idx,
    cols := (frags.map PDF.cols).flatten,
    cells := hcat aligned idx.length }

/-- Model of `pd.concat(frags, keys, axis=1, names=[n1, n2])`: like
`concatCols` but each fragment's columns are tagged with its key, producing
a two-level column axis. -/
def concatColsKeyed {ι : Type} [DecidableEq ι] (union : List (List ι) → List ι)
    (keys : List String) (frags : List (PDF ι String)) (names : List String) :
    PDF ι (String × String) :=
  let idx := union (frags.map PDF.index)
  let aligned :=
    if frags.all (fun f => f.index == idx) then frags.map PDF.cells
    else frags.map (fun f => reindexRows f idx)
  { indexNames := commonNames (frags.map PDF.indexNames),
    colNames := names,
    index := idx,
    cols := ((keys.zip frags).map (fun kf => kf.2.cols.map (fun c => (kf.1, c)))).flatten,
    cells := hcat aligned idx.length }

/-- Model of `pd.concat(frags, keys, axis=0, names=[n1, n2])`: fragments
are stacked, each row label tagged with its fragment's key, and columns
aligned by the first-occurrence union model. -/
def concatRowsKeyed {ι : Type} [DecidableEq ι] (keys : List String)
    (frags : List (PDF ι String)) (names : List String) : PDF (String × ι) String :=
  let cols := unionIndexFirst (frags.map PDF.cols)
  let aligned :=
    if frags.all (fun f => f.cols == cols) then frags.map PDF.cells
    else frags.map (fun f => reindexCols f cols)
  { indexNames := names,
    colNames := commonNames (frags.map PDF.colNames),
    index := ((keys.zip frags).map (fun kf => kf.2.index.map (fun i => (kf.1, i)))).flatten,
    cols := cols,
    cells := aligned.flatten }

/-- Reads the per-security array under `securityData` of a reference/bulk
response message; `none` models the Python exception raised when the
message does not have that shape. -/
def msgRefSecs (m : Msg) : Option (List RefSec) :=
  match m.securityData with
  | some sd =>
    match sd.payload with
    | .ref secs => some secs
    | .hist _ => none
  | none => none

/-- Reads the single-security history payload under `securityData` of a
historical response message. -/
def msgHistData (m : Msg) : Option HistData :=
  match m.securityData with
  | some sd =>
    match sd.payload with
    | .hist h => some h
    | .ref _ => none
  | none => none

/-- Result of `referenceRequest`: a bare scalar value or a DataFrame. -/
inductive RefResult
  | scalarV (v : Val)
  | tableT (t : PDF String String)
deriving DecidableEq

/-- Field loop of the `referenceRequest` table construction: each flat
field/value pair of one security is upserted into the growing table. -/
def refFieldsInto (df : PDF String String) (secName : String) :
    List (String × FieldContent) → Option (PDF String String)
  | [] => some df
  | fld :: rest => do
    let v ← fld.2.getValue
    refFieldsInto (ixSet df secName fld.1 v) secName rest

/-- Security loop of the `referenceRequest` table construction. -/
def refSecsInto (df : PDF String String) : List RefSec → Option (PDF String String)
  | [] => some df
  | sec :: rest => do
    let df2 ← refFieldsInto df sec.security sec.fieldData
    refSecsInto df2 rest

/-- Message loop of the `referenceRequest` table construction. -/
def refTableAux (df : PDF String String) : List Msg → Option (PDF String String)
  | [] => some df
  | m :: ms => do
    let secs ← msgRefSecs m
    let df2 ← refSecsInto df secs
    refTableAux df2 ms

/-- Table-building loop of `referenceRequest`: every per-security flat
field/value pair is upserted into one growing security-by-field table. -/
def refTableOfMsgs (msgs : List Msg) : Option (PDF String String) :=
  refTableAux {} msgs

/-- Model of `referenceRequest`: send the request, build the
security-by-field table, and shape the result by the original argument
types: an empty table is returned as is; with both original arguments
scalar the single contained value is returned; otherwise the named table. -/
def referenceRequest (securities fields : StrOrList)
    (kwargs : List (String × PyVal)) (session : List BEvent) : PyResult RefResult :=
  liftPoll (sendRequest "ReferenceData" securities fields kwargs session).2 (fun msgs =>
    match refTableOfMsgs msgs with
    | none => .exn
    | some data =>
      if data.isEmpty then .ok (.tableT data)
      else
        let named := withNames ["Security"] ["Field"] data
        if securities.isStr && fields.isStr then .ok (.scalarV named.iloc00)
        else .ok (.tableT named))

/-- Reads the datetime value of the `date` element of a history row
(`fld.getElementAsDatetime('date')`). -/
def histRowDate (elems : List (String × Val)) : Option Nat :=
  match elems.lookup "date" with
  | some (.dt n) => some n
  | _ => none

/-- Applies one history row to the growing per-security fragment: every
element other than the `date` element is upserted at (date, element name). -/
def applyRow (df : PDF Nat String) (d : Nat) (elems : List (String × Val)) : PDF Nat String :=
  elems.foldl (fun acc nv => if nv.1 = "date" then acc else ixSet acc d nv.1 nv.2) df

/-- Row loop of the history fragment construction. -/
def histFragmentAux (df : PDF Nat String) : List (List (String × Val)) → Option (PDF Nat String)
  | [] => some df
  | row :: rest =>
    match histRowDate row with
    | none => none
    | some d => histFragmentAux (applyRow df d row) rest

/-- Model of `df.replace('#N/A History', np.nan)`. -/
def replaceNAHistory {ι κ : Type} (df : PDF ι κ) : PDF ι κ :=
  { df with cells := df.cells.map (fun row =>
      row.map (fun v => if v = Val.str "#N/A History" then Val.na else v)) }

/-- Per-security history fragment: rows upserted date-by-date, the index
coerced to datetimes (already datetimes in the model), and the "no
history" sentinel replaced by `na`. -/
def histFragment (rows : List (List (String × Val))) : Option (PDF Nat String) :=
  (histFragmentAux {} rows).map replaceNAHistory

/-- Keys and fragments accumulated by `historicalRequest`, one per
accepted message, in message order. -/
def histPairs : List Msg → Option (List (String × PDF Nat String))
  | [] => some []
  | m :: ms => do
    let h ← msgHistData m
    let df ← histFragment h.fieldData
    let rest ← histPairs ms
    pure ((h.security, df) :: rest)

/-- Result of `historicalRequest`: the empty frame, a flat-column frame
(single scalar security), or a two-level-column frame. -/
inductive HistResult
  | emptyT
  | flatT (t : PDF Nat String)
  | multiT (t : PDF Nat (String × String))
deriving DecidableEq

/-- Model of `historicalRequest`: default options merged under the caller's
options, one fragment per response message, then combination governed by
the original type of `securities`. -/
def historicalRequest (securities fields : StrOrList) (startDate endDate : PyVal)
    (kwargs : List (String × PyVal)) (session : List BEvent) : PyResult HistResult :=
  let opts := dictUpdate (historicalDefaults startDate endDate) kwargs
  liftPoll (sendRequest "HistoricalData" securities fields opts session).2 (fun msgs =>
    match histPairs msgs with
    | none => .exn
    | some pairs =>
      if pairs.isEmpty then .ok .emptyT
      else
        match securities with
        | .str _ =>
          .ok (.flatT (withNames ["Date"] ["Field"]
            (concatCols unionIndexNat (pairs.map Prod.snd))))
        | .list _ =>
          .ok (.multiT (withNames ["Date"] ["Security", "Field"]
            (concatColsKeyed unionIndexNat (pairs.map Prod.fst) (pairs.map Prod.snd)
              ["Security", "Field"]))))

/-- Positionally indexed frame built by repeated `df.append(s,
ignore_index=True)`: the column axis grows by first occurrence of series
labels, each row keeps its own label/value pairs. -/
structure PosDF where
  cols : List String := []
  rows : List (List (String × Val)) := []
deriving DecidableEq

/-- Model of pandas `df.empty` for the positional frame. -/
def PosDF.isEmpty (df : PosDF) : Bool :=
  df.rows.isEmpty || df.cols.isEmpty

/-- Model of building a `Series` by repeated `s[name] = value` (an upsert
keyed by label). -/
def seriesOfRow (elems : List (String × Val)) : List (String × Val) :=
  elems.foldl (fun acc nv =>
    if acc.any (fun kv => kv.1 == nv.1) then
      acc.map (fun kv => if kv.1 == nv.1 then (nv.1, nv.2) else kv)
    else acc ++ [nv]) []

/-- Model of `df.append(s, ignore_index=True)`. -/
def dfAppend (df : PosDF) (s : List (String × Val)) : PosDF :=
  { cols := s.foldl (fun cs nv => if memB nv.1 cs then cs else cs ++ [nv.1]) df.cols,
    rows := df.rows ++ [s] }

/-- Per-security accumulation loop of `bulkRequest`: each row of each
bulk-valued field becomes a series appended to one frame for the whole
security; a scalar field would make `getValueAsElement` raise, modelled by
`none`. -/
def secFrame (sec : RefSec) : Option PosDF :=
  sec.fieldData.foldlM (fun df fld =>
    match fld.2 with
    | .array rows => some (rows.foldl (fun d r => dfAppend d (seriesOfRow r)) df)
    | .scalar _ => none) {}

/-- Model of `df.set_index(df.columns[0])`: the first column becomes the
row index (keeping its name as the index name); defined only when the
frame has a column. -/
def setIndexFirst (df : PosDF) : Option (PDF Val String) :=
  match df.cols with
  | [] => none
  | c0 :: rest =>
    some { indexNames := [c0],
           colNames := [],
           index := df.rows.map (fun r => (r.lookup c0).getD Val.na),
           cols := rest,
           cells := df.rows.map (fun r => rest.map (fun c => (r.lookup c).getD Val.na)) }

/-- Keys and fragments accumulated by `bulkRequest` for the securities of
one message: one fragment per security, skipping securities whose bulk
fields produced no rows. -/
def bulkOfSecs : List RefSec → Option (List (String × PDF Val String))
  | [] => some []
  | sec :: rest => do
    let pos ← secFrame sec
    let tail ← bulkOfSecs rest
    if pos.isEmpty then pure tail
    else do
      let frag ← setIndexFirst pos
      pure ((sec.security, frag) :: tail)

/-- Keys and fragments accumulated by `bulkRequest` over all accepted
messages, in message order. -/
def bulkPairs : List Msg → Option (List (String × PDF Val String))
  | [] => some []
  | m :: ms => do
    let secs ← msgRefSecs m
    let here ← bulkOfSecs secs
    let rest ← bulkPairs ms
    pure (here ++ rest)

/-- Modelled from the claim's wording, for comparison with `bulkOfSecs`:
"one fragment table is assembled per security/field from the bulk rows",
so each bulk field of a security yields its own fragment, rather than all
of a security's bulk rows accumulating into one frame as the source does. -/
def bulkOfFieldsSpec (secName : String) :
    List (String × FieldContent) → Option (List (String × PDF Val String))
  | [] => some []
  | fld :: rest =>
    match fld.2 with
    | .scalar _ => none
    | .array rows =>
      let pos := rows.foldl (fun d r => dfAppend d (seriesOfRow r)) {}
      do
        let tail ← bulkOfFieldsSpec secName rest
        if pos.isEmpty then pure tail
        else do
          let frag ← setIndexFirst pos
          pure ((secName, frag) :: tail)

/-- Claim-wording variant of `bulkOfSecs` (one fragment per
security/field). -/
def bulkOfSecsSpec : List RefSec → Option (List (String × PDF Val String))
  | [] => some []
  | sec :: rest => do
    let here ← bulkOfFieldsSpec sec.security sec.fieldData
    let tail ← bulkOfSecsSpec rest
    pure (here ++ tail)

/-- Claim-wording variant of `bulkPairs`. -/
def bulkPairsSpec : List Msg → Option (List (String × PDF Val String))
  | [] => some []
  | m :: ms => do
    let secs ← msgRefSecs m
    let here ← bulkOfSecsSpec secs
    let rest ← bulkPairsSpec ms
    pure (here ++ rest)

/-- Result of `bulkRequest`: the empty frame, a column-combined frame
(single scalar security), or a row-stacked frame with a two-level
(security, natural-key) index. -/
inductive BulkResult
  | emptyT
  | colsT (t : PDF Val String)
  | rowsT (t : PDF (String × Val) String)
deriving DecidableEq

/-- Model of `bulkRequest`: fragments are accumulated per security and
combined by the original type of `securities`. -/
def bulkRequest (securities fields : StrOrList)
    (kwargs : List (String × PyVal)) (session : List BEvent) : PyResult BulkResult :=
  liftPoll (sendRequest "ReferenceData" securities fields kwargs session).2 (fun msgs =>
    match bulkPairs msgs with
    | none => .exn
    | some pairs =>
      match pairs with
      | [] => .ok .emptyT
      | p :: ps =>
        match securities with
        | .str _ =>
          .ok (.colsT (withNames (commonNames ((p :: ps).map (fun q => q.2.indexNames)))
            ["Field"] (concatCols unionIndexFirst ((p :: ps).map Prod.snd))))
        | .list _ =>
          .ok (.rowsT (concatRowsKeyed ((p :: ps).map Prod.fst) ((p :: ps).map Prod.snd)
            ["Security", p.2.indexNames.headD ""])))

/-- Claim-wording variant of `bulkRequest`, identical except that fragments
are assembled per security/field (`bulkPairsSpec`) instead of per security. -/
def bulkRequestSpec (securities fields : StrOrList)
    (kwargs : List (String × PyVal)) (session : List BEvent) : PyResult BulkResult :=
  liftPoll (sendRequest "ReferenceData" securities fields kwargs session).2 (fun msgs =>
    match bulkPairsSpec msgs with
    | none => .exn
    | some pairs =>
      match pairs with
      | [] => .ok .emptyT
      | p :: ps =>
        match securities with
        | .str _ =>
          .ok (.colsT (withNames (commonNames ((p :: ps).map (fun q => q.2.indexNames)))
            ["Field"] (concatCols unionIndexFirst ((p :: ps).map Prod.snd))))
        | .list _ =>
          .ok (.rowsT (concatRowsKeyed ((p :: ps).map Prod.fst) ((p :: ps).map Prod.snd)
            ["Security", p.2.indexNames.headD ""])))

/-- Helper for a reference/bulk response message carrying the given
per-security records and no error indicators. -/
def mkRefMsg (secs : List RefSec) : Msg :=
  { msgType := "ReferenceDataResponse", securityData := some { payload := .ref secs } }

/-- Helper for a historical response message carrying the given security's
row records and no error indicators. -/
def mkHistMsg (sec : String) (rows : List (List (String × Val))) : Msg :=
  { msgType := "HistoricalDataResponse",
    securityData := some { payload := .hist { security := sec, fieldData := rows } } }

/-- Single-security, single-field reference session used as a concrete
input for evaluating theorems. -/
def refSess1 : List BEvent :=
  [{ eventType := .response,
     msgs := [mkRefMsg [{ security := "A", fieldData := [("F", .scalar (.num 5))] }]] }]

/-- Reference session whose one security reports no field data (the shape
of a silently failing unknown field). -/
def refSessEmptyField : List BEvent :=
  [{ eventType := .response, msgs := [mkRefMsg [{ security := "A", fieldData := [] }]] }]

/-- Message carrying both a non-empty `fieldExceptions` array and a
`securityError` element. -/
def msgFeAndSe : Msg :=
  { msgType := "ReferenceDataResponse",
    securityData := some { fieldExceptions := some [.str "fe"],
                           securityError := some (.str "se"), payload := .ref [] } }

/-- Session delivering `msgFeAndSe` in its terminal event. -/
def sessFeAndSe : List BEvent := [{ eventType := .response, msgs := [msgFeAndSe] }]

/-- Message carrying only a `securityError` element. -/
def msgSeOnly : Msg :=
  { msgType := "ReferenceDataResponse",
    securityData := some { securityError := some (.str "bad security"), payload := .ref [] } }

/-- Session delivering `msgSeOnly` in its terminal event. -/
def sessSeOnly : List BEvent := [{ eventType := .response, msgs := [msgSeOnly] }]

/-- Two-row historical session with sorted dates, used as a concrete input
for evaluating theorems. -/
def histSess1 : List BEvent :=
  [{ eventType := .response,
     msgs := [mkHistMsg "A" [[("date", .dt 1), ("PX_LAST", .num 10)],
                             [("date", .dt 2), ("PX_LAST", .num 11)]]] }]

/-- Historical session whose rows arrive in decreasing date order. -/
def histSessRev : List BEvent :=
  [{ eventType := .response,
     msgs := [mkHistMsg "A" [[("date", .dt 2), ("PX_LAST", .num 11)],
                             [("date", .dt 1), ("PX_LAST", .num 10)]]] }]

/-- Single security with two bulk fields whose rows share the same
natural-key value, the input on which `bulkRequest` and `bulkRequestSpec`
differ. -/
def bulkSecShared : RefSec :=
  { security := "S",
    fieldData := [("F1", .array [[("k", .str "a"), ("x", .num 1)]]),
                  ("F2", .array [[("k", .str "a"), ("y", .num 2)]])] }

/-- Session delivering `bulkSecShared` in its terminal event. -/
def bulkSessShared : List BEvent :=
  [{ eventType := .response, msgs := [mkRefMsg [bulkSecShared]] }]

/-- Session interleaving an unrelated message and a trailing event after
the terminal event, used as a concrete input for the accumulation claim. -/
def mixedSess : List BEvent :=
  [{ eventType := .other, msgs := [{ msgType := "ServiceStatus" },
      mkRefMsg [{ security := "A", fieldData := [("F", .scalar (.num 1))] }]] },
   { eventType := .response,
     msgs := [mkRefMsg [{ security := "B", fieldData := [("F", .scalar (.num 2))] }]] },
   { eventType := .other, msgs := [mkRefMsg [{ security := "C", fieldData := [] }]] }]

/-- Outgoing request built by a `historicalRequest` call: the fixed default
option set updated by the caller's options, then attached by `sendRequest`. -/
def historicalOutgoing (securities fields : StrOrList) (startDate endDate : PyVal)
    (kwargs : List (String × PyVal)) (session : List BEvent) : Request :=
  (sendRequest "HistoricalData" securities fields
    (dictUpdate (historicalDefaults startDate endDate) kwargs) session).1

/-- Total per-security summary of the bulk accumulation: `none` when the
security's bulk fields produced no rows (the security is skipped),
otherwise the key/fragment pair it contributes. -/
def bulkEntry (sec : RefSec) : Option (String × PDF Val String) :=
  match secFrame sec with
  | none => none
  | some pos =>
    if pos.isEmpty then none
    else (setIndexFirst pos).map (fun frag => (sec.security, frag))

/-- All per-security records of a message list, flattened in order. -/
def allRefSecs : List Msg → Option (List RefSec)
  | [] => some []
  | m :: ms => do
    let secs ← msgRefSecs m
    let rest ← allRefSecs ms
    pure (secs ++ rest)

theorem memB_iff {α : Type} [DecidableEq α] (a : α) (l : List α) :
    memB a l = true ↔ a ∈ l := by
  induction l with
  | nil => simp [memB, elemIdx]
  | cons x xs ih =>
    by_cases h : x = a
    · simp [memB, elemIdx, h]
    · simp only [memB, elemIdx, if_neg h, List.mem_cons]
      rw [memB] at ih
      cases hx : elemIdx a xs <;> simp_all [eq_comm]

theorem memB_eq_false_iff {α : Type} [DecidableEq α] (a : α) (l : List α) :
    memB a l = false ↔ a ∉ l := by
  rw [← memB_iff a l]
  cases memB a l <;> simp

theorem processEvent_eq (expected : String) (ms acc : List Msg) :
    processEvent expected ms acc =
      match ms.findSome? checkMsg with
      | some err => .error err
      | none => .ok (acc ++ ms.filter (fun m => decide (m.msgType = expected))) := by
  induction ms generalizing acc with
  | nil => simp [processEvent]
  | cons m ms ih =>
    rw [processEvent, List.findSome?_cons]
    cases h : checkMsg m with
    | some err => simp
    | none =>
      rw [ih]
      cases hf : ms.findSome? checkMsg with
      | some err => simp
      | none =>
        by_cases ht : m.msgType = expected
        · simp [ht, List.filter_cons]
        · simp [ht, List.filter_cons]

theorem observedMsgs_cons_response (e : BEvent) (rest : List BEvent)
    (h : e.eventType = EventType.response) :
    observedMsgs (e :: rest) = e.msgs := by
  simp [observedMsgs, observedEvents, h]

theorem observedMsgs_cons_other (e : BEvent) (rest : List BEvent)
    (h : ¬e.eventType = EventType.response) :
    observedMsgs (e :: rest) = e.msgs ++ observedMsgs rest := by
  simp [observedMsgs, observedEvents, h]

theorem pollLoop_eq (expected : String) (evs : List BEvent) (acc : List Msg) :
    pollLoop expected evs acc =
      match (observedMsgs evs).findSome? checkMsg with
      | some err => some (.error err)
      | none =>
        if evs.any (fun e => e.eventType == EventType.response) then
          some (.ok (acc ++ (observedMsgs evs).filter (fun m => decide (m.msgType = expected))))
        else none := by
  induction evs generalizing acc with
  | nil => simp [pollLoop, observedMsgs, observedEvents]
  | cons e rest ih =>
    rw [pollLoop, processEvent_eq]
    by_cases hterm : e.eventType = EventType.response
    · rw [observedMsgs_cons_response e rest hterm]
      cases hf : (e.msgs).findSome? checkMsg with
      | some err => simp [hterm]
      | none => simp [hterm]
    · rw [observedMsgs_cons_other e rest hterm]
      rw [List.findSome?_append]
      cases hf : (e.msgs).findSome? checkMsg with
      | some err => simp [hterm, hf]
      | none =>
        simp only [hf, Option.none_orElse]
        rw [if_neg hterm, ih]
        cases hr : (observedMsgs rest).findSome? checkMsg with
        | some err => simp [hterm, hf]
        | none =>
          have hb : (e.eventType == EventType.response) = false := by
            simp [hterm]
          simp [hb, List.filter_append]

theorem observed_split (evs : List BEvent)
    (h : evs.any (fun e => e.eventType == EventType.response) = true) :
    ∃ pre t post, evs = pre ++ t :: post ∧ t.eventType = EventType.response ∧
      (∀ e' ∈ pre, e'.eventType ≠ EventType.response) ∧
      observedEvents evs = pre ++ [t] := by
  induction evs with
  | nil => simp at h
  | cons e rest ih =>
    by_cases he : e.eventType = EventType.response
    · exact ⟨[], e, rest, by simp, he, by simp, by simp [observedEvents, he]⟩
    · have hr : rest.any (fun e => e.eventType == EventType.response) = true := by
        simp only [List.any_cons] at h
        simpa [he] using h
      obtain ⟨pre, t, post, h1, h2, h3, h4⟩ := ih hr
      refine ⟨e :: pre, t, post, by simp [h1], h2, ?_, by simp [observedEvents, he, h4]⟩
      intro e' he'
      rcases List.mem_cons.mp he' with rfl | hmem
      · exact he
      · exact h3 e' hmem

/-- C6: for every call to `sendRequest` that returns, the accumulated
response set contains exactly the polled messages whose type equals
`requestType + "Response"`, in arrival order, messages of other types being
silently dropped; and the loop returns only after the first terminal
`RESPONSE` event, the observed events being everything up to and including
that event. -/
theorem c6_sendRequest_accumulation (requestType : String) (securities fields : StrOrList)
    (elements : List (String × PyVal)) (session : List BEvent) (resp : List Msg)
    (h : (sendRequest requestType securities fields elements session).2 = some (.ok resp)) :
    resp = (observedMsgs session).filter
        (fun m => decide (m.msgType = requestType ++ "Response")) ∧
    ∃ pre t post, session = pre ++ t :: post ∧ t.eventType = EventType.response ∧
      (∀ e' ∈ pre, e'.eventType ≠ EventType.response) ∧
      observedEvents session = pre ++ [t] := by
  rw [sendRequest] at h
  rw [pollLoop_eq] at h
  cases hf : (observedMsgs session).findSome? checkMsg with
  | some err => rw [hf] at h; simp at h
  | none =>
    rw [hf] at h
    by_cases hany : session.any (fun e => e.eventType == EventType.response) = true
    · rw [if_pos hany] at h
      simp only [Option.some.injEq, Except.ok.injEq, List.nil_append] at h
      exact ⟨h.symm, observed_split session hany⟩
    · rw [if_neg hany] at h
      simp at h

/-- C6 witness: on a concrete session interleaving an unrelated message
and a post-terminal event, the accumulated set is exactly the
matching-type messages observed up to the terminal event. -/
theorem c6_sendRequest_accumulation_witness :
    (sendRequest "ReferenceData" (.str "A") (.str "F") [] mixedSess).2 =
      some (.ok ((observedMsgs mixedSess).filter
        (fun m => decide (m.msgType = "ReferenceData" ++ "Response")))) := by
  have h := c6_sendRequest_accumulation "ReferenceData" (.str "A") (.str "F") [] mixedSess
    [mkRefMsg [{ security := "A", fieldData := [("F", .scalar (.num 1))] }],
     mkRefMsg [{ security := "B", fieldData := [("F", .scalar (.num 2))] }]] rfl
  rw [← h.1]
  rfl

theorem findSome?_first_of_clean {α β : Type} (f : α → Option β) (l1 l2 : List α) (x : α) (e : β)
    (hclean : ∀ y ∈ l1, f y = none) (hx : f x = some e) :
    (l1 ++ x :: l2).findSome? f = some e := by
  induction l1 with
  | nil => simp [List.findSome?_cons, hx]
  | cons a l ih =>
    have ha : f a = none := hclean a (by simp)
    rw [List.cons_append, List.findSome?_cons, ha]
    exact ih (fun y hy => hclean y (by simp [hy]))

theorem checkMsg_security_error (m : Msg) (sd : SecurityData) (p : Val)
    (hsd : m.securityData = some sd) (hre : m.responseError = none)
    (hfe : sd.fieldExceptions = none ∨ sd.fieldExceptions = some [])
    (hse : sd.securityError = some p) :
    checkMsg m = some ⟨.val p, "Security Error"⟩ := by
  rcases hfe with h | h <;>
    simp [checkMsg, hre, hsd, h, checkSecErr, hse]

theorem checkMsg_ne_none_of_securityError (m : Msg) (sd : SecurityData) (p : Val)
    (hsd : m.securityData = some sd) (hse : sd.securityError = some p) :
    checkMsg m ≠ none := by
  cases hre : m.responseError with
  | some e => simp [checkMsg, hre]
  | none =>
    cases hfe : sd.fieldExceptions with
    | some fes =>
      by_cases hl : fes.length > 0
      · simp [checkMsg, hre, hsd, hfe, hl]
      · simp [checkMsg, hre, hsd, hfe, hl, checkSecErr, hse]
    | none => simp [checkMsg, hre, hsd, hfe, checkSecErr, hse]

/-- C3 counterexample: in `sessFeAndSe` the single observed message carries
a `securityError` element, and other messages do not even exist, yet the
request fails with description "Field Error" rather than "Security Error",
because the non-empty `fieldExceptions` check of the same message runs
first. -/
theorem c3_security_error_counterexample :
    msgFeAndSe ∈ observedMsgs sessFeAndSe ∧
    (msgFeAndSe.securityData.map SecurityData.securityError) = some (some (.str "se")) ∧
    (sendRequest "ReferenceData" (.str "X") (.str "F") [] sessFeAndSe).2 =
      some (.error ⟨.vals [.str "fe"], "Field Error"⟩) ∧
    "Field Error" ≠ "Security Error" := by
  exact ⟨by decide, rfl, rfl, by decide⟩

/-- C3 (amended): any observed message carrying a `securityError` element
makes the whole request fail by raising a `RequestError` (no partial result
is returned); the error is "Security Error" carrying the raw error payload
provided no earlier observed message fails a validation check and the
message itself carries neither a `responseError` nor a non-empty
`fieldExceptions` array (otherwise the earlier check's description wins). -/
theorem c3_security_error_amended (requestType : String) (securities fields : StrOrList)
    (elements : List (String × PyVal)) (session : List BEvent)
    (m : Msg) (sd : SecurityData) (p : Val) (l1 l2 : List Msg)
    (hsplit : observedMsgs session = l1 ++ m :: l2)
    (hsd : m.securityData = some sd) (hse : sd.securityError = some p) :
    (∃ err, (sendRequest requestType securities fields elements session).2 =
        some (.error err)) ∧
    ((∀ y ∈ l1, checkMsg y = none) → m.responseError = none →
      (sd.fieldExceptions = none ∨ sd.fieldExceptions = some []) →
      (sendRequest requestType securities fields elements session).2 =
        some (.error ⟨.val p, "Security Error"⟩)) := by
  constructor
  · have hmem : m ∈ observedMsgs session := by rw [hsplit]; simp
    have hne := checkMsg_ne_none_of_securityError m sd p hsd hse
    cases hf : (observedMsgs session).findSome? checkMsg with
    | none => exact absurd (List.findSome?_eq_none_iff.mp hf m hmem) hne
    | some err =>
      refine ⟨err, ?_⟩
      show pollLoop (requestType ++ "Response") session [] = some (.error err)
      rw [pollLoop_eq, hf]
  · intro hclean hre hfe
    have hck := checkMsg_security_error m sd p hsd hre hfe hse
    have hf : (observedMsgs session).findSome? checkMsg =
        some ⟨.val p, "Security Error"⟩ := by
      rw [hsplit]
      exact findSome?_first_of_clean checkMsg l1 l2 m _ hclean hck
    show pollLoop (requestType ++ "Response") session [] =
      some (.error ⟨.val p, "Security Error"⟩)
    rw [pollLoop_eq, hf]

/-- C3 witness: on a concrete session whose only message carries just a
`securityError`, the amended theorem yields the "Security Error" failure. -/
theorem c3_security_error_amended_witness :
    (sendRequest "ReferenceData" (.str "X") (.str "F") [] sessSeOnly).2 =
      some (.error ⟨.val (.str "bad security"), "Security Error"⟩) := by
  have h := c3_security_error_amended "ReferenceData" (.str "X") (.str "F") [] sessSeOnly
    msgSeOnly { securityError := some (.str "bad security"), payload := .ref [] }
    (.str "bad security") [] [] rfl rfl rfl
  exact h.2 (by intro y hy; cases hy) rfl (Or.inl rfl)

theorem refSecsInto_empty (secs : List RefSec) (df : PDF String String)
    (h : ∀ sec ∈ secs, sec.fieldData = []) : refSecsInto df secs = some df := by
  induction secs generalizing df with
  | nil => rfl
  | cons sec rest ih =>
    rw [refSecsInto, h sec (by simp)]
    simpa [refFieldsInto] using ih df (fun s hs => h s (by simp [hs]))

theorem refTableAux_empty (ms : List Msg) (df : PDF String String)
    (h : ∀ m ∈ ms, (msgRefSecs m).isSome ∧
      ∀ sec ∈ (msgRefSecs m).getD [], sec.fieldData = []) :
    refTableAux df ms = some df := by
  induction ms generalizing df with
  | nil => rfl
  | cons m ms ih =>
    obtain ⟨h1, h2⟩ := h m (by simp)
    cases hm : msgRefSecs m with
    | none => rw [hm] at h1; simp at h1
    | some secs =>
      rw [refTableAux, hm]
      rw [hm] at h2
      simp only [Option.getD_some] at h2
      rw [show (some secs >>= fun secs => refSecsInto df secs >>= fun df2 => refTableAux df2 ms) =
        (refSecsInto df secs >>= fun df2 => refTableAux df2 ms) from rfl]
      rw [refSecsInto_empty secs df h2]
      simpa using ih df (fun m' hm' => h m' (by simp [hm']))

/-- C2: a reference request naming one identifier and one field where the
field is simply unknown to the service (the observed messages carry no
error indicators and every reported security has empty field data)
completes without raising any `RequestError` and yields an empty table. -/
theorem c2_invalid_field_silent (s f : String) (kwargs : List (String × PyVal))
    (session : List BEvent)
    (hclean : ∀ m ∈ observedMsgs session, checkMsg m = none)
    (hterm : session.any (fun e => e.eventType == EventType.response) = true)
    (hshape : ∀ m ∈ observedMsgs session, m.msgType = "ReferenceData" ++ "Response" →
      (msgRefSecs m).isSome ∧ ∀ sec ∈ (msgRefSecs m).getD [], sec.fieldData = []) :
    referenceRequest (.str s) (.str f) kwargs session = .ok (.tableT {}) := by
  have hf : (observedMsgs session).findSome? checkMsg = none :=
    List.findSome?_eq_none_iff.mpr hclean
  have hpoll : (sendRequest "ReferenceData" (.str s) (.str f) kwargs session).2 =
      some (.ok ((observedMsgs session).filter
        (fun m => decide (m.msgType = "ReferenceData" ++ "Response")))) := by
    show pollLoop ("ReferenceData" ++ "Response") session [] = _
    rw [pollLoop_eq, hf]
    simp [hterm]
  have htab : refTableOfMsgs ((observedMsgs session).filter
      (fun m => decide (m.msgType = "ReferenceData" ++ "Response"))) = some {} := by
    apply refTableAux_empty
    intro m hm
    have hmem := List.mem_filter.mp hm
    exact hshape m hmem.1 (by simpa using hmem.2)
  rw [referenceRequest, hpoll, liftPoll, htab]
  rfl

/-- C2 witness: the concrete empty-field session yields the empty table. -/
theorem c2_invalid_field_silent_witness :
    referenceRequest (.str "A") (.str "F") [] refSessEmptyField = .ok (.tableT {}) :=
  c2_invalid_field_silent "A" "F" [] refSessEmptyField (by decide) (by decide) (by decide)

/-- C1: for every reference request call that returns, with `data` the
internally built security-by-field table: an empty table is returned
empty; when both original arguments were scalar strings and the table is
non-empty, the bare contained value (`iloc[0,0]`) is returned, not a
table; when either original argument was a collection (including a
one-element list), the full named table is returned, never a bare scalar. -/
theorem c1_reference_scalar_vs_table (securities fields : StrOrList)
    (kwargs : List (String × PyVal)) (session : List BEvent)
    (msgs : List Msg) (data : PDF String String)
    (hpoll : (sendRequest "ReferenceData" securities fields kwargs session).2 =
      some (.ok msgs))
    (htab : refTableOfMsgs msgs = some data) :
    (data.isEmpty = true →
      referenceRequest securities fields kwargs session = .ok (.tableT data)) ∧
    (data.isEmpty = false → securities.isStr = true → fields.isStr = true →
      referenceRequest securities fields kwargs session =
        .ok (.scalarV (withNames ["Security"] ["Field"] data).iloc00)) ∧
    (data.isEmpty = false → (securities.isStr && fields.isStr) = false →
      referenceRequest securities fields kwargs session =
        .ok (.tableT (withNames ["Security"] ["Field"] data))) := by
  rw [referenceRequest, hpoll, liftPoll, htab]
  refine ⟨?_, ?_, ?_⟩
  · intro he; simp [he]
  · intro he h1 h2; simp [he, h1, h2]
  · intro he h12; simp [he, h12]

/-- C1 witness: a single-security, single-field session returns the bare
scalar value. -/
theorem c1_reference_scalar_vs_table_witness :
    referenceRequest (.str "A") (.str "F") [] refSess1 = .ok (.scalarV (.num 5)) := by
  have h := c1_reference_scalar_vs_table (.str "A") (.str "F") [] refSess1
    [mkRefMsg [{ security := "A", fieldData := [("F", .scalar (.num 5))] }]]
    { index := ["A"], cols := ["F"], cells := [[.num 5]] } rfl rfl
  exact (h.2.1 rfl rfl rfl).trans rfl

/-- C9: `open()` and `close()` are idempotent: opening while active changes
nothing (no new session start, state unchanged), closing while inactive
changes nothing; after `open()` the active flag is true, after `close()`
it is false. -/
theorem c9_open_close_idempotent (s : ConnState) :
    (s.active = true → openConn s = s) ∧
    (s.active = false → closeConn s = s) ∧
    (openConn s).active = true ∧
    (closeConn s).active = false ∧
    openConn (openConn s) = openConn s ∧
    closeConn (closeConn s) = closeConn s ∧
    (s.active = true → (openConn s).sessionsStarted = s.sessionsStarted) := by
  by_cases h : s.active = true
  · simp [openConn, closeConn, h]
  · simp only [Bool.not_eq_true] at h
    simp [openConn, closeConn, h]

/-- C9 witness: idempotence at a concrete already-active state. -/
theorem c9_open_close_idempotent_witness :
    openConn { active := true, sessionsStarted := 1, sessionsStopped := 0 } =
      { active := true, sessionsStarted := 1, sessionsStopped := 0 } ∧
    (closeConn { active := true, sessionsStarted := 1, sessionsStopped := 0 }).active = false := by
  have h := c9_open_close_idempotent { active := true, sessionsStarted := 1, sessionsStopped := 0 }
  exact ⟨h.1 rfl, h.2.2.2.1⟩

theorem pollLoopSt_state (expected : String) (conn : ConnState) (evs : List BEvent)
    (acc : List Msg) : (pollLoopSt expected conn evs acc).2 = conn := by
  induction evs generalizing acc with
  | nil => rfl
  | cons e rest ih =>
    rw [pollLoopSt]
    cases processEvent expected e.msgs acc with
    | error err => rfl
    | ok acc' =>
      by_cases h : e.eventType = EventType.response
      · simp [h]
      · simp [h, ih]

/-- C10: when `sendRequest` aborts by raising a `RequestError`, the
connection state is unchanged: the active flag keeps its value and the
session is not stopped, so further requests can be issued on the same
instance. -/
theorem c10_sendRequest_state (conn : ConnState) (requestType : String)
    (securities fields : StrOrList) (elements : List (String × PyVal))
    (session : List BEvent) (err : RequestError)
    (hraise : (sendRequestSt conn requestType securities fields elements session).1.2 =
      some (.error err)) :
    (sendRequestSt conn requestType securities fields elements session).2 = conn ∧
    (sendRequestSt conn requestType securities fields elements session).2.active = conn.active ∧
    (sendRequestSt conn requestType securities fields elements session).2.sessionsStopped =
      conn.sessionsStopped := by
  have h := pollLoopSt_state (requestType ++ "Response") conn session []
  refine ⟨?_, ?_, ?_⟩ <;> simp [sendRequestSt, h]

/-- C10 witness: after a concrete "Security Error" abort the connection is
still active. -/
theorem c10_sendRequest_state_witness :
    (sendRequestSt { active := true, sessionsStarted := 1, sessionsStopped := 0 }
      "ReferenceData" (.str "X") (.str "F") [] sessSeOnly).2.active = true := by
  have h := c10_sendRequest_state
    { active := true, sessionsStarted := 1, sessionsStopped := 0 }
    "ReferenceData" (.str "X") (.str "F") [] sessSeOnly
    ⟨.val (.str "bad security"), "Security Error"⟩ rfl
  exact h.2.1.trans rfl

theorem lookup_append_py (l1 l2 : List (String × PyVal)) (k : String) :
    (l1 ++ l2).lookup k = ((l1.lookup k).orElse (fun _ => l2.lookup k)) := by
  induction l1 with
  | nil => simp
  | cons kv rest ih =>
    rcases kv with ⟨k1, v1⟩
    by_cases h : k == k1
    · simp [List.lookup_cons, h]
    · simp only [List.cons_append, List.lookup_cons, h, ih]

theorem lookup_replace_self (d : List (String × PyVal)) (k : String) (v : PyVal)
    (h : d.any (fun kv => kv.1 == k) = true) :
    (d.map (fun kv => if kv.1 == k then (k, v) else kv)).lookup k = some v := by
  induction d with
  | nil => simp at h
  | cons kv rest ih =>
    rcases kv with ⟨k1, v1⟩
    by_cases hp : k1 = k
    · simp [List.lookup_cons, hp]
    · have hrest : rest.any (fun kv => kv.1 == k) = true := by
        simpa [hp] using h
      have hne : (k == k1) = false := by
        simp only [beq_eq_false_iff_ne, ne_eq]
        exact fun e => hp e.symm
      simp only [List.map_cons]
      rw [if_neg (by simp [hp])]
      rw [List.lookup_cons]
      simp only [hne]
      exact ih hrest

theorem lookup_replace_ne (d : List (String × PyVal)) (k k' : String) (v : PyVal)
    (h : ¬k' = k) :
    (d.map (fun kv => if kv.1 == k then (k, v) else kv)).lookup k' = d.lookup k' := by
  induction d with
  | nil => simp
  | cons kv rest ih =>
    rcases kv with ⟨k1, v1⟩
    by_cases hp : k1 = k
    · have h1 : (k' == k1) = false := by
        simp only [beq_eq_false_iff_ne, ne_eq, hp]
        exact h
      simp only [List.map_cons]
      rw [if_pos (by simp [hp])]
      rw [List.lookup_cons, List.lookup_cons]
      have h2 : (k' == k) = false := by
        simp only [beq_eq_false_iff_ne, ne_eq]
        exact h
      simp only [h1, h2, ih]
    · simp only [List.map_cons]
      rw [if_neg (by simp [hp])]
      rw [List.lookup_cons, List.lookup_cons]
      cases hbe : k' == k1 with
      | false => exact ih
      | true => rfl

theorem lookup_not_mem_none (d : List (String × PyVal)) (k : String)
    (h : d.any (fun kv => kv.1 == k) = false) : d.lookup k = none := by
  induction d with
  | nil => simp
  | cons kv rest ih =>
    rcases kv with ⟨k1, v1⟩
    simp only [List.any_cons, Bool.or_eq_false_iff] at h
    rw [List.lookup_cons]
    have : (k == k1) = false := by
      simp only [beq_eq_false_iff_ne, ne_eq]
      intro e
      exact absurd (by simp [e] : (k1 == k) = true) (by simp [h.1])
    simp only [this]
    exact ih h.2

theorem lookup_dictSet_self (d : List (String × PyVal)) (k : String) (v : PyVal) :
    (dictSet d k v).lookup k = some v := by
  unfold dictSet
  by_cases h : d.any (fun kv => kv.1 == k) = true
  · rw [if_pos h]
    exact lookup_replace_self d k v h
  · rw [if_neg h, lookup_append_py]
    rw [lookup_not_mem_none d k (by rwa [Bool.not_eq_true] at h)]
    simp

theorem lookup_dictSet_ne (d : List (String × PyVal)) (k k' : String) (v : PyVal)
    (h : ¬k' = k) : (dictSet d k v).lookup k' = d.lookup k' := by
  unfold dictSet
  by_cases ha : d.any (fun kv => kv.1 == k) = true
  · rw [if_pos ha]
    exact lookup_replace_ne d k k' v h
  · rw [if_neg ha, lookup_append_py]
    have h2 : (k' == k) = false := by
      simp only [beq_eq_false_iff_ne, ne_eq]
      exact h
    cases hl : d.lookup k' <;> simp [List.lookup_cons, h2]

theorem any_key_eq_false (d : List (String × PyVal)) (k : String)
    (h : k ∉ d.map Prod.fst) : d.any (fun kv => kv.1 == k) = false := by
  rw [List.any_eq_false]
  intro kv hkv hbe
  exact h (List.mem_map.mpr ⟨kv, hkv, by simpa [beq_iff_eq] using hbe⟩)

theorem lookup_dictUpdate : ∀ (kwargs d : List (String × PyVal)) (k : String),
    (kwargs.map Prod.fst).Nodup →
    (dictUpdate d kwargs).lookup k = ((kwargs.lookup k).orElse (fun _ => d.lookup k))
  | [], d, k, _ => by simp [dictUpdate]
  | (k1, v1) :: rest, d, k, hnd => by
    simp only [List.map_cons, List.nodup_cons] at hnd
    rw [show dictUpdate d ((k1, v1) :: rest) = dictUpdate (dictSet d k1 v1) rest from rfl]
    rw [lookup_dictUpdate rest (dictSet d k1 v1) k hnd.2]
    by_cases hk : k = k1
    · subst hk
      have hr : rest.lookup k = none := by
        apply lookup_not_mem_none
        exact any_key_eq_false rest k hnd.1
      rw [hr, lookup_dictSet_self, List.lookup_cons]
      simp
    · rw [lookup_dictSet_ne d k1 k v1 hk, List.lookup_cons]
      have hbe : (k == k1) = false := by
        simp only [beq_eq_false_iff_ne, ne_eq]
        exact hk
      simp only [hbe]

theorem keys_dictSet (d : List (String × PyVal)) (k : String) (v : PyVal) :
    (dictSet d k v).map Prod.fst =
      if d.any (fun kv => kv.1 == k) then d.map Prod.fst else d.map Prod.fst ++ [k] := by
  unfold dictSet
  by_cases h : d.any (fun kv => kv.1 == k) = true
  · rw [if_pos h, if_pos h, List.map_map]
    apply List.map_congr_left
    intro kv _
    by_cases hk : kv.1 == k
    · have : kv.1 = k := by simpa [beq_iff_eq] using hk
      simp [Function.comp, hk, this]
    · simp [Function.comp, hk]
  · rw [if_neg h, if_neg h]
    simp

theorem nodup_keys_dictSet (d : List (String × PyVal)) (k : String) (v : PyVal)
    (h : (d.map Prod.fst).Nodup) : ((dictSet d k v).map Prod.fst).Nodup := by
  rw [keys_dictSet]
  by_cases ha : d.any (fun kv => kv.1 == k) = true
  · rwa [if_pos ha]
  · rw [if_neg ha]
    have hk : k ∉ d.map Prod.fst := by
      intro hm
      obtain ⟨kv, hkv, he⟩ := List.mem_map.mp hm
      have : d.any (fun kv => kv.1 == k) = true :=
        List.any_eq_true.mpr ⟨kv, hkv, by simp [beq_iff_eq, he]⟩
      exact ha this
    simp only [List.nodup_append, List.nodup_cons, List.not_mem_nil, not_false_iff,
      List.nodup_nil, and_true, true_and]
    constructor
    · exact h
    · intro x hx hx1
      rcases List.mem_singleton.mp hx1 with rfl
      exact hk hx

theorem nodup_keys_dictUpdate : ∀ (kvs d : List (String × PyVal)),
    (d.map Prod.fst).Nodup → ((dictUpdate d kvs).map Prod.fst).Nodup
  | [], _, h => h
  | kv :: rest, d, h =>
    nodup_keys_dictUpdate rest (dictSet d kv.1 kv.2) (nodup_keys_dictSet d kv.1 kv.2 h)

theorem foldl_requestSet_eq : ∀ (els acc : List (String × PyVal)),
    (els.map Prod.fst).Nodup →
    (∀ x ∈ els.map Prod.fst, x ∉ acc.map Prod.fst) →
    els.foldl (fun a kv => requestSet a kv.1 (serializeOpt kv.2)) acc =
      acc ++ els.map (fun kv => (kv.1, serializeOpt kv.2))
  | [], acc, _, _ => by simp
  | (k1, v1) :: rest, acc, hnd, hdisj => by
    simp only [List.foldl_cons]
    have hk1 : k1 ∉ acc.map Prod.fst := hdisj k1 (by simp)
    have hset : requestSet acc k1 (serializeOpt v1) = acc ++ [(k1, serializeOpt v1)] := by
      unfold requestSet dictSet
      rw [if_neg (by rw [any_key_eq_false acc k1 hk1]; simp)]
    rw [hset]
    simp only [List.map_cons, List.nodup_cons] at hnd
    rw [foldl_requestSet_eq rest (acc ++ [(k1, serializeOpt v1)]) hnd.2 ?_]
    · simp
    · intro x hx
      simp only [List.map_append, List.map_cons, List.map_nil, List.mem_append,
        List.mem_singleton, not_or]
      constructor
      · exact hdisj x (by simp [hx])
      · intro hxe
        rcases hxe with rfl
        exact hnd.1 hx

theorem lookup_map_serialize (els : List (String × PyVal)) (k : String) :
    (els.map (fun kv => (kv.1, serializeOpt kv.2))).lookup k =
      (els.lookup k).map serializeOpt := by
  induction els with
  | nil => simp
  | cons kv rest ih =>
    rcases kv with ⟨k1, v1⟩
    rw [List.map_cons, List.lookup_cons, List.lookup_cons]
    cases hbe : k == k1 with
    | true => rfl
    | false => exact ih

/-- C7: for every historical request, the outgoing request's option set is
the fixed default mapping (periodicityAdjustment=ACTUAL,
periodicitySelection=DAILY, nonTradingDayFillOption=ACTIVE_DAYS_ONLY,
adjustmentSplit on, the other adjustments off, plus the given start and
end dates) merged under the caller's keyword options, caller values
overriding defaults key-by-key; the attached elements are exactly that
merged mapping after date serialization. -/
theorem c7_historical_defaults (securities fields : StrOrList) (startDate endDate : PyVal)
    (kwargs : List (String × PyVal)) (session : List BEvent)
    (hnd : (kwargs.map Prod.fst).Nodup) (k : String) :
    (dictUpdate (historicalDefaults startDate endDate) kwargs).lookup k =
      ((kwargs.lookup k).orElse
        (fun _ => (historicalDefaults startDate endDate).lookup k)) ∧
    (historicalOutgoing securities fields startDate endDate kwargs session).elements.lookup k =
      ((dictUpdate (historicalDefaults startDate endDate) kwargs).lookup k).map
        serializeOpt := by
  constructor
  · exact lookup_dictUpdate kwargs (historicalDefaults startDate endDate) k hnd
  · have hdk : ((historicalDefaults startDate endDate).map Prod.fst).Nodup := by
      show (["startDate", "endDate", "periodicityAdjustment", "periodicitySelection",
        "nonTradingDayFillOption", "adjustmentNormal", "adjustmentAbnormal",
        "adjustmentSplit", "adjustmentFollowDPDF"] : List String).Nodup
      decide
    have hndm := nodup_keys_dictUpdate kwargs (historicalDefaults startDate endDate) hdk
    show ((dictUpdate (historicalDefaults startDate endDate) kwargs).foldl
        (fun a kv => requestSet a kv.1 (serializeOpt kv.2)) []).lookup k = _
    rw [foldl_requestSet_eq _ [] hndm (by simp)]
    simp only [List.nil_append]
    exact lookup_map_serialize _ k

/-- C7 witness: a concrete caller override wins on its key while an
untouched default keeps its fixed value, both in the merged mapping and on
the outgoing request. -/
theorem c7_historical_defaults_witness :
    (dictUpdate (historicalDefaults (.str "20141231") (.str "20150131"))
      [("periodicitySelection", .str "WEEKLY")]).lookup "periodicitySelection" =
      some (.str "WEEKLY") ∧
    (dictUpdate (historicalDefaults (.str "20141231") (.str "20150131"))
      [("periodicitySelection", .str "WEEKLY")]).lookup "periodicityAdjustment" =
      some (.str "ACTUAL") ∧
    (historicalOutgoing (.str "A") (.str "PX_LAST") (.str "20141231") (.str "20150131")
      [("periodicitySelection", .str "WEEKLY")] []).elements.lookup "periodicitySelection" =
      some (.str "WEEKLY") := by
  have h1 := c7_historical_defaults (.str "A") (.str "PX_LAST") (.str "20141231")
    (.str "20150131") [("periodicitySelection", .str "WEEKLY")] [] (by decide)
    "periodicitySelection"
  have h2 := c7_historical_defaults (.str "A") (.str "PX_LAST") (.str "20141231")
    (.str "20150131") [("periodicitySelection", .str "WEEKLY")] [] (by decide)
    "periodicityAdjustment"
  exact ⟨h1.1.trans rfl, h2.1.trans rfl, h1.2.trans rfl⟩

theorem ofDigits_replicate_zero (b k : Nat) :
    Nat.ofDigits b (List.replicate k 0) = 0 := by
  induction k with
  | zero => rfl
  | succ n ih => simp [List.replicate_succ, Nat.ofDigits_cons, ih]

theorem digitsBE_length_le (n k : Nat) (h : n < 10 ^ k) : (digitsBE n).length ≤ k := by
  rw [digitsBE, List.length_reverse]
  rcases Nat.eq_zero_or_pos n with rfl | hn
  · simp
  by_contra hlen
  push_neg at hlen
  have h1 : 10 ^ (Nat.digits 10 n).length ≤ 10 * n :=
    Nat.base_pow_length_digits_le 10 n (by norm_num) (Nat.pos_iff_ne_zero.mp hn)
  have h2 : 10 ^ (k + 1) ≤ 10 ^ (Nat.digits 10 n).length :=
    Nat.pow_le_pow_right (by norm_num) hlen
  rw [pow_succ] at h2
  have h3 : 10 * n < 10 * 10 ^ k := by omega
  rw [Nat.mul_comm] at h2
  omega

theorem padDigits_length (w : Nat) (l : List Nat) (h : l.length ≤ w) :
    (padDigits w l).length = w := by
  rw [padDigits, List.length_append, List.length_replicate]
  omega

theorem fromDigitsBE_pad (w n : Nat) (h : (digitsBE n).length ≤ w) :
    fromDigitsBE (padDigits w (digitsBE n)) = n := by
  rw [fromDigitsBE, padDigits, List.reverse_append, List.reverse_replicate, digitsBE,
    List.reverse_reverse, Nat.ofDigits_append, Nat.ofDigits_digits,
    ofDigits_replicate_zero, Nat.mul_zero, Nat.add_zero]

theorem digitsBE_lt (n : Nat) : ∀ x ∈ digitsBE n, x < 10 := by
  intro x hx
  rw [digitsBE, List.mem_reverse] at hx
  exact Nat.digits_lt_base (by norm_num) hx

theorem padDigits_lt (w : Nat) (l : List Nat) (h : ∀ x ∈ l, x < 10) :
    ∀ x ∈ padDigits w l, x < 10 := by
  intro x hx
  rw [padDigits, List.mem_append] at hx
  rcases hx with hx | hx
  · rw [List.eq_of_mem_replicate hx]
    norm_num
  · exact h x hx

theorem dateDigits_lt (d : PyDate) : ∀ x ∈ dateDigits d, x < 10 := by
  intro x hx
  rw [dateDigits, List.append_assoc, List.mem_append, List.mem_append] at hx
  rcases hx with hx | hx | hx
  · exact padDigits_lt 4 _ (digitsBE_lt d.year) x hx
  · exact padDigits_lt 2 _ (digitsBE_lt d.month) x hx
  · exact padDigits_lt 2 _ (digitsBE_lt d.day) x hx

theorem charVal_digitChar (n : Nat) (h : n < 10) : charVal (digitChar n) = n := by
  interval_cases n <;> rfl

theorem isDigit_digitChar (n : Nat) (h : n < 10) : (digitChar n).isDigit = true := by
  interval_cases n <;> rfl

theorem dateDigits_length (d : PyDate) (hy : d.year ≤ 9999) (hm : d.month ≤ 99)
    (hd : d.day ≤ 99) : (dateDigits d).length = 8 := by
  have h1 : (digitsBE d.year).length ≤ 4 := digitsBE_length_le _ 4 (by omega)
  have h2 : (digitsBE d.month).length ≤ 2 := digitsBE_length_le _ 2 (by omega)
  have h3 : (digitsBE d.day).length ≤ 2 := digitsBE_length_le _ 2 (by omega)
  rw [dateDigits, List.length_append, List.length_append,
    padDigits_length 4 _ h1, padDigits_length 2 _ h2, padDigits_length 2 _ h3]

/-- C8: every `datetime` option value is serialized to the 8-digit
`YYYYMMDD` numeric string before attachment, the serialization is
deterministic and reversible to the same calendar date, and every
non-`datetime` option value is passed through unchanged. -/
theorem c8_date_serialization (d : PyDate)
    (hy1 : 1 ≤ d.year) (hy2 : d.year ≤ 9999)
    (hm1 : 1 ≤ d.month) (hm2 : d.month ≤ 12)
    (hd1 : 1 ≤ d.day) (hd2 : d.day ≤ 31) :
    serializeOpt (.date d) = .str (strftimeYMD d) ∧
    (strftimeYMD d).length = 8 ∧
    (∀ c ∈ (strftimeYMD d).data, c.isDigit = true) ∧
    parseYMD (strftimeYMD d) = some d ∧
    (∀ v : PyVal, v.isDate = false → serializeOpt v = v) := by
  have hlen8 : (dateDigits d).length = 8 := dateDigits_length d hy2 (by omega) (by omega)
  have hdataeq : (strftimeYMD d).data = (dateDigits d).map digitChar := rfl
  have hlen : (strftimeYMD d).length = 8 := by
    show (strftimeYMD d).data.length = 8
    rw [hdataeq, List.length_map, hlen8]
  have hdig : ∀ c ∈ (strftimeYMD d).data, c.isDigit = true := by
    intro c hc
    rw [hdataeq] at hc
    obtain ⟨x, hx, rfl⟩ := List.mem_map.mp hc
    exact isDigit_digitChar x (dateDigits_lt d x hx)
  have hyl : (digitsBE d.year).length ≤ 4 := digitsBE_length_le _ 4 (by omega)
  have hml : (digitsBE d.month).length ≤ 2 := digitsBE_length_le _ 2 (by omega)
  have hdl : (digitsBE d.day).length ≤ 2 := digitsBE_length_le _ 2 (by omega)
  have hA : (padDigits 4 (digitsBE d.year)).length = 4 := padDigits_length 4 _ hyl
  have hB : (padDigits 2 (digitsBE d.month)).length = 2 := padDigits_length 2 _ hml
  refine ⟨rfl, hlen, hdig, ?_, ?_⟩
  · rw [parseYMD, if_pos ?cond]
    case cond =>
      refine ⟨by rw [hdataeq, List.length_map, hlen8], ?_⟩
      rw [hdataeq, List.all_eq_true]
      intro c hc
      obtain ⟨x, hx, rfl⟩ := List.mem_map.mp hc
      exact isDigit_digitChar x (dateDigits_lt d x hx)
    have hmapeq : (strftimeYMD d).data.map charVal = dateDigits d := by
      rw [hdataeq, List.map_map]
      have hcongr : (dateDigits d).map (charVal ∘ digitChar) = (dateDigits d).map id :=
        List.map_congr_left (fun x hx => charVal_digitChar x (dateDigits_lt d x hx))
      rw [hcongr, List.map_id]
    rw [hmapeq, dateDigits, List.append_assoc]
    have htake4 : (padDigits 4 (digitsBE d.year) ++
        (padDigits 2 (digitsBE d.month) ++ padDigits 2 (digitsBE d.day))).take 4 =
        padDigits 4 (digitsBE d.year) := List.take_left' hA
    have hdrop4 : (padDigits 4 (digitsBE d.year) ++
        (padDigits 2 (digitsBE d.month) ++ padDigits 2 (digitsBE d.day))).drop 4 =
        padDigits 2 (digitsBE d.month) ++ padDigits 2 (digitsBE d.day) :=
      List.drop_left' hA
    have hdrop6 : (padDigits 4 (digitsBE d.year) ++
        (padDigits 2 (digitsBE d.month) ++ padDigits 2 (digitsBE d.day))).drop 6 =
        padDigits 2 (digitsBE d.day) := by
      rw [show (6 : Nat) = 4 + 2 from by norm_num, ← List.drop_drop, hdrop4,
        List.drop_left' hB]
    rw [htake4, hdrop4, hdrop6, List.take_left' hB,
      fromDigitsBE_pad 4 _ hyl, fromDigitsBE_pad 2 _ hml, fromDigitsBE_pad 2 _ hdl]
  · intro v hv
    cases v with
    | date dd => simp [PyVal.isDate] at hv
    | str s => rfl
    | boolV b => rfl
    | num n => rfl

/-- C8 witness: the concrete date 2014-01-31 serializes to an 8-character
digit string and parses back to itself. -/
theorem c8_date_serialization_witness :
    parseYMD (strftimeYMD ⟨2014, 1, 31⟩) = some ⟨2014, 1, 31⟩ ∧
    (strftimeYMD ⟨2014, 1, 31⟩).length = 8 := by
  have h := c8_date_serialization ⟨2014, 1, 31⟩ (by norm_num) (by norm_num) (by norm_num)
    (by norm_num) (by norm_num) (by norm_num)
  exact ⟨h.2.2.2.1, h.2.1⟩

theorem ixSet_index {ι κ : Type} [DecidableEq ι] [DecidableEq κ]
    (df : PDF ι κ) (r : ι) (c : κ) (v : Val) :
    (ixSet df r c v).index = if memB r df.index then df.index else df.index ++ [r] := by
  unfold ixSet
  by_cases hc : memB c df.cols <;> by_cases hr : memB r df.index <;> simp [hc, hr]

theorem applyRow_index_mem : ∀ (elems : List (String × Val)) (df : PDF Nat String) (d : Nat),
    memB d df.index = true → (applyRow df d elems).index = df.index
  | [], _, _, _ => rfl
  | nv :: rest, df, d, h => by
    rw [show applyRow df d (nv :: rest) =
      applyRow (if nv.1 = "date" then df else ixSet df d nv.1 nv.2) d rest from rfl]
    by_cases hd : nv.1 = "date"
    · rw [if_pos hd]
      exact applyRow_index_mem rest df d h
    · rw [if_neg hd]
      have h2 : (ixSet df d nv.1 nv.2).index = df.index := by
        rw [ixSet_index, if_pos h]
      have h3 : memB d (ixSet df d nv.1 nv.2).index = true := by rw [h2]; exact h
      rw [applyRow_index_mem rest _ d h3, h2]

theorem applyRow_index_cases : ∀ (elems : List (String × Val)) (df : PDF Nat String) (d : Nat),
    (applyRow df d elems).index = df.index ∨
    (memB d df.index = false ∧ (applyRow df d elems).index = df.index ++ [d])
  | [], _, _ => Or.inl rfl
  | nv :: rest, df, d => by
    rw [show applyRow df d (nv :: rest) =
      applyRow (if nv.1 = "date" then df else ixSet df d nv.1 nv.2) d rest from rfl]
    by_cases hd : nv.1 = "date"
    · rw [if_pos hd]
      exact applyRow_index_cases rest df d
    · rw [if_neg hd]
      cases hm : memB d df.index with
      | true =>
        left
        have h2 : (ixSet df d nv.1 nv.2).index = df.index := by
          rw [ixSet_index, if_pos hm]
        have h3 : memB d (ixSet df d nv.1 nv.2).index = true := by rw [h2]; exact hm
        rw [applyRow_index_mem rest _ d h3, h2]
      | false =>
        right
        refine ⟨rfl, ?_⟩
        have h2 : (ixSet df d nv.1 nv.2).index = df.index ++ [d] := by
          rw [ixSet_index, if_neg (by rw [hm]; simp)]
        have h3 : memB d (ixSet df d nv.1 nv.2).index = true := by
          rw [h2, memB_iff]
          simp
        rw [applyRow_index_mem rest _ d h3, h2]

theorem histFragmentAux_sorted : ∀ (rows : List (List (String × Val)))
    (df df' : PDF Nat String),
    List.Sorted (· < ·) df.index →
    List.Pairwise (· ≤ ·) (rows.filterMap histRowDate) →
    (∀ x ∈ df.index, ∀ e ∈ rows.filterMap histRowDate, x ≤ e) →
    histFragmentAux df rows = some df' →
    List.Sorted (· < ·) df'.index
  | [], df, df', hs, _, _, heq => by
    rw [histFragmentAux] at heq
    cases heq
    exact hs
  | row :: rest, df, df', hs, hp, hb, heq => by
    rw [histFragmentAux] at heq
    cases hd : histRowDate row with
    | none => rw [hd] at heq; cases heq
    | some dd =>
      rw [hd] at heq
      have hfm : (row :: rest).filterMap histRowDate = dd :: rest.filterMap histRowDate := by
        rw [List.filterMap_cons, hd]
      rw [hfm] at hp hb
      have hp2 := List.pairwise_cons.mp hp
      rcases applyRow_index_cases row df dd with hcase | ⟨hmem, hcase⟩
      · refine histFragmentAux_sorted rest _ df' (by rw [hcase]; exact hs) hp2.2 ?_ heq
        intro x hx e he
        rw [hcase] at hx
        exact hb x hx e (List.mem_cons_of_mem dd he)
      · refine histFragmentAux_sorted rest _ df' ?_ hp2.2 ?_ heq
        · rw [hcase, List.Sorted, List.pairwise_append]
          refine ⟨hs, by simp, ?_⟩
          intro a ha b hbm
          rcases List.mem_singleton.mp hbm with rfl
          have hle : a ≤ b := hb a ha b (List.mem_cons_self b _)
          have hne : a ≠ b := by
            intro heq2
            subst heq2
            rw [memB_eq_false_iff] at hmem
            exact hmem ha
          omega
        · intro x hx e he
          rw [hcase, List.mem_append] at hx
          rcases hx with hx | hx
          · exact hb x hx e (List.mem_cons_of_mem dd he)
          · rcases List.mem_singleton.mp hx with rfl
            exact hp2.1 e he

theorem histFragment_sorted (rows : List (List (String × Val))) (df : PDF Nat String)
    (hp : List.Pairwise (· ≤ ·) (rows.filterMap histRowDate))
    (heq : histFragment rows = some df) :
    List.Sorted (· < ·) df.index := by
  rw [histFragment] at heq
  cases haux : histFragmentAux {} rows with
  | none => rw [haux] at heq; cases heq
  | some df0 =>
    rw [haux] at heq
    simp only [Option.map_some'] at heq
    have heq2 : replaceNAHistory df0 = df := Option.some.inj heq
    have hidx : df.index = df0.index := by rw [← heq2]; rfl
    rw [hidx]
    refine histFragmentAux_sorted rows {} df0 (by simp) hp ?_ haux
    intro x hx
    cases hx

theorem mem_insertSorted (x b : Nat) : ∀ (l : List Nat),
    b ∈ insertSorted x l ↔ b = x ∨ b ∈ l
  | [] => by simp [insertSorted]
  | y :: ys => by
    rw [insertSorted]
    by_cases h1 : x < y
    · rw [if_pos h1]; simp
    · rw [if_neg h1]
      by_cases h2 : x = y
      · rw [if_pos h2]
        subst h2
        simp only [List.mem_cons]
        tauto
      · rw [if_neg h2]
        simp only [List.mem_cons, mem_insertSorted x b ys]
        tauto

theorem insertSorted_sorted (x : Nat) : ∀ (l : List Nat),
    List.Sorted (· < ·) l → List.Sorted (· < ·) (insertSorted x l)
  | [], _ => by simp [insertSorted]
  | y :: ys, h => by
    rw [insertSorted]
    by_cases h1 : x < y
    · rw [if_pos h1, List.sorted_cons]
      refine ⟨?_, h⟩
      intro b hb
      rcases List.mem_cons.mp hb with rfl | hb2
      · exact h1
      · exact lt_trans h1 ((List.sorted_cons.mp h).1 b hb2)
    · rw [if_neg h1]
      by_cases h2 : x = y
      · rw [if_pos h2]; exact h
      · rw [if_neg h2]
        rw [List.sorted_cons] at h ⊢
        refine ⟨?_, insertSorted_sorted x ys h.2⟩
        intro b hb
        rcases (mem_insertSorted x b ys).mp hb with rfl | hb2
        · omega
        · exact h.1 b hb2

theorem sortedDedup_sorted (l : List Nat) : List.Sorted (· < ·) (sortedDedup l) := by
  rw [sortedDedup]
  induction l with
  | nil => simp
  | cons x xs ih => exact insertSorted_sorted x _ ih

theorem unionIndexNat_sorted (ls : List (List Nat))
    (h : ∀ l ∈ ls, List.Sorted (· < ·) l) :
    List.Sorted (· < ·) (unionIndexNat ls) := by
  cases ls with
  | nil => simp [unionIndexNat]
  | cons x xs =>
    rw [unionIndexNat]
    by_cases hall : xs.all (fun l => l == x) = true
    · rw [if_pos hall]
      exact h x (List.mem_cons_self x xs)
    · rw [if_neg hall]
      exact sortedDedup_sorted _

theorem histPairs_mem : ∀ (msgs : List Msg) (pairs : List (String × PDF Nat String)),
    histPairs msgs = some pairs → ∀ p ∈ pairs,
    ∃ m ∈ msgs, ∃ h, msgHistData m = some h ∧ histFragment h.fieldData = some p.2
  | [], pairs, heq, p, hp => by
    rw [histPairs] at heq
    cases heq
    cases hp
  | m :: ms, pairs, heq, p, hp => by
    rw [histPairs] at heq
    cases hH : msgHistData m with
    | none => rw [hH] at heq; cases heq
    | some h =>
      rw [hH] at heq
      simp only [Option.bind_eq_bind, Option.some_bind] at heq
      cases hF : histFragment h.fieldData with
      | none => rw [hF] at heq; cases heq
      | some df =>
        rw [hF] at heq
        simp only [Option.some_bind] at heq
        cases hR : histPairs ms with
        | none => rw [hR] at heq; cases heq
        | some rest =>
          rw [hR] at heq
          simp only [Option.some_bind, Option.pure_def] at heq
          have heq2 : (h.security, df) :: rest = pairs := by
            exact Option.some.inj heq
          rw [← heq2] at hp
          rcases List.mem_cons.mp hp with rfl | hmem
          · exact ⟨m, List.mem_cons_self m ms, h, hH, hF⟩
          · obtain ⟨m', hm', h', hH', hF'⟩ := histPairs_mem ms rest hR p hmem
            exact ⟨m', List.mem_cons_of_mem m hm', h', hH', hF'⟩

/-- C4: for every non-empty historical result, with `pairs` the accumulated
per-security fragments: a scalar `securities` argument yields a
flat-column frame whose column axis is named "Field" and lists the field
names, a collection argument yields a two-level (Security, Field) column
axis, and in both cases the row index is named "Date" — unconditionally;
and whenever the messages' rows arrive in non-decreasing date order, each
fragment's date index is strictly increasing (hence duplicate-free) and
the combined row index is strictly chronological. -/
theorem c4_historical_shape (securities fields : StrOrList) (startDate endDate : PyVal)
    (kwargs : List (String × PyVal)) (session : List BEvent)
    (msgs : List Msg) (pairs : List (String × PDF Nat String))
    (hpoll : (sendRequest "HistoricalData" securities fields
      (dictUpdate (historicalDefaults startDate endDate) kwargs) session).2 =
      some (.ok msgs))
    (hpairs : histPairs msgs = some pairs)
    (hne : pairs ≠ []) :
    ((∀ m ∈ msgs, List.Pairwise (· ≤ ·)
        (((msgHistData m).map (fun h => h.fieldData.filterMap histRowDate)).getD [])) →
      ∀ p ∈ pairs, List.Sorted (· < ·) p.2.index ∧ p.2.index.Nodup) ∧
    (∀ s, securities = .str s → ∃ t,
      historicalRequest securities fields startDate endDate kwargs session =
        .ok (.flatT t) ∧
      t.colNames = ["Field"] ∧ t.indexNames = ["Date"] ∧
      t.cols = (pairs.map (fun p => p.2.cols)).flatten ∧
      ((∀ m ∈ msgs, List.Pairwise (· ≤ ·)
          (((msgHistData m).map (fun h => h.fieldData.filterMap histRowDate)).getD [])) →
        List.Sorted (· < ·) t.index)) ∧
    (∀ l, securities = .list l → ∃ t,
      historicalRequest securities fields startDate endDate kwargs session =
        .ok (.multiT t) ∧
      t.colNames = ["Security", "Field"] ∧ t.indexNames = ["Date"] ∧
      t.cols = (((pairs.map Prod.fst).zip (pairs.map Prod.snd)).map
        (fun kf => kf.2.cols.map (fun c => (kf.1, c)))).flatten ∧
      ((∀ m ∈ msgs, List.Pairwise (· ≤ ·)
          (((msgHistData m).map (fun h => h.fieldData.filterMap histRowDate)).getD [])) →
        List.Sorted (· < ·) t.index)) := by
  have hfragsorted : (∀ m ∈ msgs, List.Pairwise (· ≤ ·)
      (((msgHistData m).map (fun h => h.fieldData.filterMap histRowDate)).getD [])) →
      ∀ p ∈ pairs, List.Sorted (· < ·) p.2.index := by
    intro hsorted p hp
    obtain ⟨m, hm, h, hH, hF⟩ := histPairs_mem msgs pairs hpairs p hp
    have hps := hsorted m hm
    rw [hH] at hps
    simp only [Option.map_some', Option.getD_some] at hps
    exact histFragment_sorted h.fieldData p.2 hps hF
  have hempty : pairs.isEmpty = false := by
    cases pairs with
    | nil => exact absurd rfl hne
    | cons p ps => rfl
  have hunion : (∀ m ∈ msgs, List.Pairwise (· ≤ ·)
      (((msgHistData m).map (fun h => h.fieldData.filterMap histRowDate)).getD [])) →
      List.Sorted (· < ·) (unionIndexNat ((pairs.map Prod.snd).map PDF.index)) := by
    intro hsorted
    apply unionIndexNat_sorted
    intro l hl
    obtain ⟨df, hdf, rfl⟩ := List.mem_map.mp hl
    obtain ⟨p, hp, rfl⟩ := List.mem_map.mp hdf
    exact hfragsorted hsorted p hp
  refine ⟨?_, ?_, ?_⟩
  · intro hsorted p hp
    exact ⟨hfragsorted hsorted p hp,
      (hfragsorted hsorted p hp).imp (fun hlt => Nat.ne_of_lt hlt)⟩
  · intro s hs
    subst hs
    refine ⟨withNames ["Date"] ["Field"] (concatCols unionIndexNat (pairs.map Prod.snd)),
      ?_, rfl, rfl, ?_, ?_⟩
    · simp only [historicalRequest, hpoll, liftPoll, hpairs, hempty]
      simp [hempty]
    · show ((pairs.map Prod.snd).map PDF.cols).flatten =
        (pairs.map (fun p => p.2.cols)).flatten
      rw [List.map_map]
      rfl
    · exact hunion
  · intro l hl
    subst hl
    refine ⟨withNames ["Date"] ["Security", "Field"]
      (concatColsKeyed unionIndexNat (pairs.map Prod.fst) (pairs.map Prod.snd)
        ["Security", "Field"]), ?_, rfl, rfl, rfl, ?_⟩
    · simp only [historicalRequest, hpoll, liftPoll, hpairs, hempty]
      simp [hempty]
    · exact hunion

/-- C4 witness: a concrete single-security history session with sorted
dates yields the flat frame with index name "Date", column name "Field"
and strictly increasing index. -/
theorem c4_historical_shape_witness :
    historicalRequest (.str "A") (.str "PX_LAST") (.str "s") (.str "e") [] histSess1 =
      .ok (.flatT { indexNames := ["Date"], colNames := ["Field"], index := [1, 2],
                    cols := ["PX_LAST"], cells := [[.num 10], [.num 11]] }) ∧
    List.Sorted (· < ·) ([1, 2] : List Nat) := by
  have h := c4_historical_shape (.str "A") (.str "PX_LAST") (.str "s") (.str "e") []
    histSess1
    [mkHistMsg "A" [[("date", .dt 1), ("PX_LAST", .num 10)],
                    [("date", .dt 2), ("PX_LAST", .num 11)]]]
    [("A", { index := [1, 2], cols := ["PX_LAST"], cells := [[.num 10], [.num 11]] })]
    rfl rfl (by decide)
  obtain ⟨t, ht, hcn, hin, hcols, hsortimp⟩ := h.2.1 "A" rfl
  have hsort := hsortimp (by decide)
  have hconc : historicalRequest (.str "A") (.str "PX_LAST") (.str "s") (.str "e") []
      histSess1 = .ok (.flatT { indexNames := ["Date"], colNames := ["Field"],
                                index := [1, 2], cols := ["PX_LAST"],
                                cells := [[.num 10], [.num 11]] }) := rfl
  have hteq := ht.symm.trans hconc
  simp only [PyResult.ok.injEq, HistResult.flatT.injEq] at hteq
  subst hteq
  exact ⟨hconc, hsort⟩

theorem setIndexFirst_spec (pos : PosDF) (frag : PDF Val String)
    (heq : setIndexFirst pos = some frag) :
    ∃ c0 rest, pos.cols = c0 :: rest ∧
      frag.indexNames = [c0] ∧
      frag.index = pos.rows.map (fun r => (r.lookup c0).getD Val.na) ∧
      frag.cols = rest := by
  rw [setIndexFirst] at heq
  cases hc : pos.cols with
  | nil => rw [hc] at heq; cases heq
  | cons c0 rest =>
    rw [hc] at heq
    have hp := Option.some.inj heq
    refine ⟨c0, rest, rfl, ?_, ?_, ?_⟩
    · rw [← hp]
    · rw [← hp]
    · rw [← hp]

theorem bulkEntry_spec (sec : RefSec) (p : String × PDF Val String)
    (heq : bulkEntry sec = some p) :
    ∃ pos c0 rest, p.1 = sec.security ∧ secFrame sec = some pos ∧
      pos.isEmpty = false ∧ pos.cols = c0 :: rest ∧
      p.2.indexNames = [c0] ∧
      p.2.index = pos.rows.map (fun r => (r.lookup c0).getD Val.na) ∧
      p.2.cols = rest := by
  rw [bulkEntry] at heq
  cases hsf : secFrame sec with
  | none => rw [hsf] at heq; cases heq
  | some pos =>
    rw [hsf] at heq
    have heq2 : (if pos.isEmpty = true then none
        else (setIndexFirst pos).map (fun frag => (sec.security, frag))) = some p := heq
    by_cases hie : pos.isEmpty = true
    · rw [if_pos hie] at heq2; cases heq2
    · rw [if_neg hie] at heq2
      cases hsi : setIndexFirst pos with
      | none => rw [hsi] at heq2; cases heq2
      | some frag =>
        rw [hsi] at heq2
        simp only [Option.map_some'] at heq2
        have hp := Option.some.inj heq2
        obtain ⟨c0, rest, hc, hin, hidx, hcols⟩ := setIndexFirst_spec pos frag hsi
        refine ⟨pos, c0, rest, ?_, rfl, ?_, hc, ?_, ?_, ?_⟩
        · rw [← hp]
        · cases hv : pos.isEmpty with
          | false => rfl
          | true => exact absurd hv hie
        · rw [← hp]; exact hin
        · rw [← hp]; exact hidx
        · rw [← hp]; exact hcols

theorem bulkOfSecs_filterMap : ∀ (secs : List RefSec) (prs : List (String × PDF Val String)),
    bulkOfSecs secs = some prs → prs = secs.filterMap bulkEntry
  | [], prs, heq => by
    rw [bulkOfSecs] at heq
    cases heq
    rfl
  | sec :: rest, prs, heq => by
    rw [bulkOfSecs] at heq
    cases hsf : secFrame sec with
    | none => rw [hsf] at heq; cases heq
    | some pos =>
      rw [hsf] at heq
      simp only [Option.bind_eq_bind, Option.some_bind] at heq
      cases hre : bulkOfSecs rest with
      | none => rw [hre] at heq; cases heq
      | some tail =>
        rw [hre] at heq
        simp only [Option.some_bind] at heq
        by_cases hie : pos.isEmpty = true
        · rw [if_pos hie] at heq
          have ht : tail = prs := Option.some.inj heq
          rw [← ht, List.filterMap_cons]
          have hbe : bulkEntry sec = none := by
            have hstep : bulkEntry sec = (if pos.isEmpty = true then none
              else (setIndexFirst pos).map (fun frag => (sec.security, frag))) := by
              rw [bulkEntry, hsf]
            rw [hstep, if_pos hie]
          rw [hbe]
          exact bulkOfSecs_filterMap rest tail hre
        · rw [if_neg hie] at heq
          cases hsi : setIndexFirst pos with
          | none => rw [hsi] at heq; cases heq
          | some frag =>
            rw [hsi] at heq
            simp only [Option.some_bind, Option.pure_def] at heq
            have ht : (sec.security, frag) :: tail = prs := Option.some.inj heq
            rw [← ht, List.filterMap_cons]
            have hbe : bulkEntry sec = some (sec.security, frag) := by
              have hstep : bulkEntry sec = (if pos.isEmpty = true then none
                else (setIndexFirst pos).map (fun frag => (sec.security, frag))) := by
                rw [bulkEntry, hsf]
              rw [hstep, if_neg hie, hsi]
              rfl
            rw [hbe]
            rw [bulkOfSecs_filterMap rest tail hre]

theorem bulkPairs_filterMap : ∀ (msgs : List Msg) (pairs : List (String × PDF Val String)),
    bulkPairs msgs = some pairs →
    ∃ secs, allRefSecs msgs = some secs ∧ pairs = secs.filterMap bulkEntry
  | [], pairs, heq => by
    rw [bulkPairs] at heq
    cases heq
    exact ⟨[], rfl, rfl⟩
  | m :: ms, pairs, heq => by
    rw [bulkPairs] at heq
    cases hrs : msgRefSecs m with
    | none => rw [hrs] at heq; cases heq
    | some secs =>
      rw [hrs] at heq
      simp only [Option.bind_eq_bind, Option.some_bind] at heq
      cases hos : bulkOfSecs secs with
      | none => rw [hos] at heq; cases heq
      | some here =>
        rw [hos] at heq
        simp only [Option.some_bind] at heq
        cases hbp : bulkPairs ms with
        | none => rw [hbp] at heq; cases heq
        | some rest =>
          rw [hbp] at heq
          simp only [Option.some_bind, Option.pure_def] at heq
          have heq2 : here ++ rest = pairs := Option.some.inj heq
          obtain ⟨secs2, ha, hfm⟩ := bulkPairs_filterMap ms rest hbp
          refine ⟨secs ++ secs2, ?_, ?_⟩
          · rw [allRefSecs, hrs, ha]
            simp
          · rw [← heq2, List.filterMap_append, hfm,
              bulkOfSecs_filterMap secs here hos]

/-- C5 counterexample: on `bulkSessShared` (one scalar security, two bulk
fields whose rows share the same natural-key value) the source accumulates
all of the security's bulk rows into ONE per-security frame, yielding a
two-row table with a duplicated index entry, whereas the claim's
"one fragment per security/field" assembly joins the two one-row fragments
side by side into a single row; the two results differ. -/
theorem c5_bulk_counterexample :
    bulkRequest (.str "S") (.list ["F1", "F2"]) [] bulkSessShared =
      .ok (.colsT { indexNames := ["k"], colNames := ["Field"],
                    index := [.str "a", .str "a"], cols := ["x", "y"],
                    cells := [[.num 1, .na], [.na, .num 2]] }) ∧
    bulkRequestSpec (.str "S") (.list ["F1", "F2"]) [] bulkSessShared =
      .ok (.colsT { indexNames := ["k"], colNames := ["Field"],
                    index := [.str "a"], cols := ["x", "y"],
                    cells := [[.num 1, .num 2]] }) ∧
    bulkRequest (.str "S") (.list ["F1", "F2"]) [] bulkSessShared ≠
      bulkRequestSpec (.str "S") (.list ["F1", "F2"]) [] bulkSessShared := by
  refine ⟨rfl, rfl, ?_⟩
  intro he
  have h2 : PyResult.ok (BulkResult.colsT { indexNames := ["k"], colNames := ["Field"],
                                            index := [Val.str "a", Val.str "a"],
                                            cols := ["x", "y"],
                                            cells := [[Val.num 1, Val.na],
                                                      [Val.na, Val.num 2]] }) =
      PyResult.ok (BulkResult.colsT { indexNames := ["k"], colNames := ["Field"],
                                      index := [Val.str "a"], cols := ["x", "y"],
                                      cells := [[Val.num 1, Val.num 2]] }) := he
  simp at h2

/-- C5 (amended): one fragment is assembled per security, accumulating the
bulk rows of all of that security's bulk fields into one frame indexed by
the first column of the bulk record (its natural key, whose name becomes
the index name); securities whose bulk fields produced no rows are
skipped; with a scalar `securities` argument the fragments are combined
side by side as columns under a "Field"-named axis, otherwise they are
stacked under a two-level (Security, natural-key) row hierarchy; with no
fragments the empty frame is returned. -/
theorem c5_bulk_amended (securities fields : StrOrList)
    (kwargs : List (String × PyVal)) (session : List BEvent)
    (msgs : List Msg) (pairs : List (String × PDF Val String))
    (hpoll : (sendRequest "ReferenceData" securities fields kwargs session).2 =
      some (.ok msgs))
    (hpairs : bulkPairs msgs = some pairs) :
    (∃ secs, allRefSecs msgs = some secs ∧ pairs = secs.filterMap bulkEntry) ∧
    (∀ p ∈ pairs, ∃ (pos : PosDF) (c0 : String) (rest : List String),
      pos.isEmpty = false ∧ pos.cols = c0 :: rest ∧
      p.2.indexNames = [c0] ∧
      p.2.index = pos.rows.map (fun r => (r.lookup c0).getD Val.na) ∧
      p.2.cols = rest) ∧
    (pairs = [] → bulkRequest securities fields kwargs session = .ok .emptyT) ∧
    (∀ p ps, pairs = p :: ps → securities.isStr = true → ∃ t,
      bulkRequest securities fields kwargs session = .ok (.colsT t) ∧
      t.colNames = ["Field"] ∧
      t.cols = ((pairs.map Prod.snd).map PDF.cols).flatten) ∧
    (∀ p ps, pairs = p :: ps → securities.isStr = false → ∃ t,
      bulkRequest securities fields kwargs session = .ok (.rowsT t) ∧
      t.indexNames = ["Security", p.2.indexNames.headD ""] ∧
      t.index = (((pairs.map Prod.fst).zip (pairs.map Prod.snd)).map
        (fun kf => kf.2.index.map (fun i => (kf.1, i)))).flatten) := by
  obtain ⟨secs, hsecs, hfm⟩ := bulkPairs_filterMap msgs pairs hpairs
  refine ⟨⟨secs, hsecs, hfm⟩, ?_, ?_, ?_, ?_⟩
  · intro p hp
    rw [hfm] at hp
    obtain ⟨sec, hsec, hbe⟩ := List.mem_filterMap.mp hp
    obtain ⟨pos, c0, rest, _, _, hie, hc, hin, hidx, hcols⟩ := bulkEntry_spec sec p hbe
    exact ⟨pos, c0, rest, hie, hc, hin, hidx, hcols⟩
  · intro hnil
    subst hnil
    simp only [bulkRequest, hpoll, liftPoll, hpairs]
  · intro p ps hcons hstr
    subst hcons
    cases securities with
    | list l => simp [StrOrList.isStr] at hstr
    | str s =>
      refine ⟨withNames (commonNames ((p :: ps).map (fun q => q.2.indexNames))) ["Field"]
        (concatCols unionIndexFirst ((p :: ps).map Prod.snd)), ?_, rfl, rfl⟩
      simp only [bulkRequest, hpoll, liftPoll, hpairs]
  · intro p ps hcons hstr
    subst hcons
    cases securities with
    | str s => simp [StrOrList.isStr] at hstr
    | list l =>
      refine ⟨concatRowsKeyed ((p :: ps).map Prod.fst) ((p :: ps).map Prod.snd)
        ["Security", p.2.indexNames.headD ""], ?_, rfl, rfl⟩
      simp only [bulkRequest, hpoll, liftPoll, hpairs]

/-- C5 witness: the concrete shared-key session evaluates to the
column-combined result with the duplicated natural-key index. -/
theorem c5_bulk_amended_witness :
    bulkRequest (.str "S") (.list ["F1", "F2"]) [] bulkSessShared =
      .ok (.colsT { indexNames := ["k"], colNames := ["Field"],
                    index := [.str "a", .str "a"], cols := ["x", "y"],
                    cells := [[.num 1, .na], [.na, .num 2]] }) := by
  have h := c5_bulk_amended (.str "S") (.list ["F1", "F2"]) [] bulkSessShared
    [mkRefMsg [bulkSecShared]]
    [("S", { indexNames := ["k"], index := [.str "a", .str "a"], cols := ["x", "y"],
             cells := [[.num 1, .na], [.na, .num 2]] })]
    rfl rfl
  obtain ⟨t, ht, hcn, hcols⟩ := h.2.2.2.1
    ("S", { indexNames := ["k"], index := [.str "a", .str "a"], cols := ["x", "y"],
            cells := [[.num 1, .na], [.na, .num 2]] }) [] rfl rfl
  have hconc : bulkRequest (.str "S") (.list ["F1", "F2"]) [] bulkSessShared =
      .ok (.colsT { indexNames := ["k"], colNames := ["Field"],
                    index := [.str "a", .str "a"], cols := ["x", "y"],
                    cells := [[.num 1, .na], [.na, .num 2]] }) := rfl
  have hteq := ht.symm.trans hconc
  simp only [PyResult.ok.injEq, BulkResult.colsT.injEq] at hteq
  subst hteq
  exact ht

/-- C4 counterexample: the source never sorts the dates it receives, so
when the transport delivers a security's rows out of date order the
non-empty result's row index is not chronological. -/
theorem c4_historical_counterexample :
    historicalRequest (.str "A") (.str "PX_LAST") (.str "s") (.str "e") [] histSessRev =
      .ok (.flatT { indexNames := ["Date"], colNames := ["Field"], index := [2, 1],
                    cols := ["PX_LAST"], cells := [[.num 11], [.num 10]] }) ∧
    ¬List.Sorted (· < ·) ([2, 1] : List Nat) :=
  ⟨rfl, by decide⟩
